import Mathlib

/-!
Shallow embedding of the battle simulation engine from `src/lib/battleEngine.ts`
(class `BattleEngine`), together with proofs about it.

Modelling conventions:
* JavaScript numbers are modelled by `ℚ`.  The claims settled here do not
  depend on floating-point rounding.
* The ambient `Math` functions (`Math.sqrt`, `Math.cos`, `Math.sin`,
  `Math.atan2`, `Math.PI`) and the random source `Math.random` are abstracted
  into a `MathPrims` structure; the only facts about them the code relies on
  are recorded as fields (`sqrt 0 = 0`, `Math.random ∈ [0, 1)`, `Math.PI > 0`).
  `Math.random` is modelled as an oracle stream indexed by a counter that the
  engine state threads (each JS call consumes the next stream element).
* The module-level id counter `nextId` (source line 72) is threaded through the
  engine state; ids `prefix-n` are represented by the number `n`, which
  determines them (one shared counter serves ships, projectiles, explosions).
* In-place mutation of the single found/hit object is modelled by updating the
  first matching list entry; in every reachable state ids are unique, so this
  coincides with the JS semantics.
-/

namespace BattleSim

inductive Faction where
  | rebel
  | imperial
deriving DecidableEq, Repr

/-- `Starship` record, source lines 6-17. -/
structure Starship where
  id : ℕ
  x : ℚ
  y : ℚ
  vx : ℚ
  vy : ℚ
  rotation : ℚ
  faction : Faction
  health : ℚ
  lastFireTime : ℚ
  size : ℚ
deriving DecidableEq, Repr

/-- `LaserProjectile` record, source lines 19-28. -/
structure LaserProjectile where
  id : ℕ
  x : ℚ
  y : ℚ
  vx : ℚ
  vy : ℚ
  faction : Faction
  targetId : ℕ
  createdAt : ℚ
deriving DecidableEq, Repr

/-- `Explosion` record, source lines 30-38. -/
structure Explosion where
  id : ℕ
  x : ℚ
  y : ℚ
  radius : ℚ
  maxRadius : ℚ
  opacity : ℚ
  createdAt : ℚ
deriving DecidableEq, Repr

/-- `BattleState` record (value level), source lines 40-44. -/
structure BattleState where
  ships : List Starship
  projectiles : List LaserProjectile
  explosions : List Explosion
deriving DecidableEq, Repr

/-- `BattleConfig`, source lines 46-57. -/
structure BattleConfig where
  canvasWidth : ℚ
  canvasHeight : ℚ
  rebelShipCount : ℕ
  imperialShipCount : ℕ
  shipSpeed : ℚ
  projectileSpeed : ℚ
  fireRate : ℚ
  projectileDamage : ℚ
  explosionDuration : ℚ
  respawnDelay : ℚ
deriving DecidableEq, Repr

/-- `DEFAULT_BATTLE_CONFIG`, source lines 59-70. -/
def DEFAULT_BATTLE_CONFIG : BattleConfig :=
  { canvasWidth := 1920
    canvasHeight := 1080
    rebelShipCount := 5
    imperialShipCount := 5
    shipSpeed := 100
    projectileSpeed := 400
    fireRate := 2000
    projectileDamage := 25
    explosionDuration := 500
    respawnDelay := 3000 }

/-- Entries of the private `respawnQueue`, source line 81. -/
structure RespawnEntry where
  faction : Faction
  respawnAt : ℚ
deriving DecidableEq, Repr

/-- The ambient JS `Math` primitives and the `Math.random` oracle stream.
Only facts the engine code actually relies on are recorded. -/
structure MathPrims where
  sqrt : ℚ → ℚ
  cos : ℚ → ℚ
  sin : ℚ → ℚ
  atan2 : ℚ → ℚ → ℚ
  pi : ℚ
  random : ℕ → ℚ
  sqrt_zero : sqrt 0 = 0
  random_nonneg : ∀ n, 0 ≤ random n
  random_lt_one : ∀ n, random n < 1
  pi_pos : 0 < pi

/-- The private per-instance state of `BattleEngine`, source lines 77-81,
with the module-level id counter and the random-oracle position threaded. -/
structure Engine where
  config : BattleConfig
  ships : List Starship
  projectiles : List LaserProjectile
  explosions : List Explosion
  currentTime : ℚ
  respawnQueue : List RespawnEntry
  nextId : ℕ
  rngIndex : ℕ
deriving DecidableEq, Repr

/-- First normalization loop of `updateShips`, source line 264:
`while (angleDiff > Math.PI) angleDiff -= Math.PI * 2`. -/
def normDown (P : MathPrims) (a : ℚ) : ℚ :=
  if h : P.pi < a then normDown P (a - 2 * P.pi) else a
termination_by (⌈(a - P.pi) / (2 * P.pi)⌉).toNat
decreasing_by
  have hpi := P.pi_pos
  have h2 : (0 : ℚ) < 2 * P.pi := by linarith
  have hx : 0 < (a - P.pi) / (2 * P.pi) := div_pos (by linarith) h2
  have hc : 0 < ⌈(a - P.pi) / (2 * P.pi)⌉ := Int.ceil_pos.mpr hx
  have he : (a - 2 * P.pi - P.pi) / (2 * P.pi) = (a - P.pi) / (2 * P.pi) - 1 := by
    field_simp
    ring
  have hstep : ⌈(a - 2 * P.pi - P.pi) / (2 * P.pi)⌉ = ⌈(a - P.pi) / (2 * P.pi)⌉ - 1 := by
    rw [he, Int.ceil_sub_one]
  rw [hstep]
  omega

/-- Second normalization loop of `updateShips`, source line 265:
`while (angleDiff < -Math.PI) angleDiff += Math.PI * 2`. -/
def normUp (P : MathPrims) (a : ℚ) : ℚ :=
  if h : a < -P.pi then normUp P (a + 2 * P.pi) else a
termination_by (⌈(-P.pi - a) / (2 * P.pi)⌉).toNat
decreasing_by
  have hpi := P.pi_pos
  have h2 : (0 : ℚ) < 2 * P.pi := by linarith
  have hx : 0 < (-P.pi - a) / (2 * P.pi) := div_pos (by linarith) h2
  have hc : 0 < ⌈(-P.pi - a) / (2 * P.pi)⌉ := Int.ceil_pos.mpr hx
  have he : (-P.pi - (a + 2 * P.pi)) / (2 * P.pi) = (-P.pi - a) / (2 * P.pi) - 1 := by
    field_simp
    ring
  have hstep : ⌈(-P.pi - (a + 2 * P.pi)) / (2 * P.pi)⌉ = ⌈(-P.pi - a) / (2 * P.pi)⌉ - 1 := by
    rw [he, Int.ceil_sub_one]
  rw [hstep]
  omega

/-- Angle-difference normalization to `[-π, π]`, source lines 263-265. -/
def normalizeAngle (P : MathPrims) (a : ℚ) : ℚ :=
  normUp P (normDown P a)

/-- `createShip`, source lines 217-244.  `idc` is the current value of the id
counter, `ri` the current random-oracle position (four `Math.random()` calls:
x, y, angle, speed factor). -/
def createShip (P : MathPrims) (cfg : BattleConfig) (idc ri : ℕ)
    (faction : Faction) : Starship :=
  let margin : ℚ := 50
  let rx := P.random ri
  let ry := P.random (ri + 1)
  let rAngle := P.random (ri + 2)
  let rSpeed := P.random (ri + 3)
  let x := match faction with
    | Faction.rebel => margin + rx * (cfg.canvasWidth / 2 - margin * 2)
    | Faction.imperial =>
        cfg.canvasWidth / 2 + margin + rx * (cfg.canvasWidth / 2 - margin * 2)
  let y := margin + ry * (cfg.canvasHeight - margin * 2)
  let angle := rAngle * (P.pi * 2)
  let speed := cfg.shipSpeed * (1 / 2 + rSpeed * (1 / 2))
  { id := idc
    x := x
    y := y
    vx := P.cos angle * speed
    vy := P.sin angle * speed
    rotation := angle
    faction := faction
    health := 100
    lastFireTime := 0
    size := 20 }

/-- One `for` loop of `spawnInitialShips`, source lines 209-214: push `n`
ships of the given faction, threading the id counter and the oracle position.
Returns the pushed ships together with the final counter values. -/
def spawnShips (P : MathPrims) (cfg : BattleConfig) (faction : Faction) :
    ℕ → ℕ → ℕ → List Starship × ℕ × ℕ
  | 0, idc, ri => ([], idc, ri)
  | n + 1, idc, ri =>
    let s := createShip P cfg idc ri faction
    let rest := spawnShips P cfg faction n (idc + 1) (ri + 4)
    (s :: rest.1, rest.2)

/-- The constructor, source lines 83-93 (with the config already merged onto
the defaults).  `idc` and `ri` are the incoming id-counter and oracle values. -/
def mkEngine (P : MathPrims) (cfg : BattleConfig) (idc ri : ℕ) : Engine :=
  let rebels := spawnShips P cfg Faction.rebel cfg.rebelShipCount idc ri
  let imps := spawnShips P cfg Faction.imperial cfg.imperialShipCount
    rebels.2.1 rebels.2.2
  { config := cfg
    ships := rebels.1 ++ imps.1
    projectiles := []
    explosions := []
    currentTime := 0
    respawnQueue := []
    nextId := imps.2.1
    rngIndex := imps.2.2 }

/-- `reset`, source lines 195-204: same as construction but keeps the existing
config (and, being module-level, the id counter keeps running). -/
def Engine.reset (P : MathPrims) (e : Engine) : Engine :=
  mkEngine P e.config e.nextId e.rngIndex

/-- Mutation `ship.lastFireTime = this.currentTime` of the object found by
`find`, source line 145: update the first entry with the given id. -/
def setLastFire (sid : ℕ) (t : ℚ) : List Starship → List Starship
  | [] => []
  | s :: rest =>
    if s.id = sid then { s with lastFireTime := t } :: rest
    else s :: setLastFire sid t rest

/-- `fireAtTarget`, source lines 117-146. -/
def fireAtTarget (P : MathPrims) (e : Engine) (shipId targetId : ℕ) : Engine :=
  match e.ships.find? (fun s => s.id == shipId) with
  | none => e
  | some ship =>
    match e.ships.find? (fun s => s.id == targetId) with
    | none => e
    | some target =>
      if ship.health ≤ 0 ∨ target.health ≤ 0 then e
      else
        let dx := target.x - ship.x
        let dy := target.y - ship.y
        let dist := P.sqrt (dx * dx + dy * dy)
        if dist = 0 then e
        else
          let dirX := dx / dist
          let dirY := dy / dist
          let proj : LaserProjectile :=
            { id := e.nextId
              x := ship.x
              y := ship.y
              vx := dirX * e.config.projectileSpeed
              vy := dirY * e.config.projectileSpeed
              faction := ship.faction
              targetId := target.id
              createdAt := e.currentTime }
          { e with
            projectiles := e.projectiles ++ [proj]
            nextId := e.nextId + 1
            ships := setLastFire ship.id e.currentTime e.ships }

/-- `createExplosion`, source lines 327-338 (one `Math.random()` call for
`maxRadius`). -/
def createExplosion (P : MathPrims) (now : ℚ) (idc ri : ℕ) (x y : ℚ) :
    Explosion :=
  { id := idc
    x := x
    y := y
    radius := 0
    maxRadius := 30 + P.random ri * 20
    opacity := 1
    createdAt := now }

/-- Inner `for (const ship of this.state.ships)` loop of `checkCollisions`,
source lines 155-185: scan the ships in order for the first one the projectile
hits (different faction, alive, within `size`); on a hit apply the damage with
the clamp at 0 and stop (`break`).  Returns `none` when no ship is hit, and
otherwise the updated ship list, the damaged ship (post-clamp) and a flag
telling whether this hit destroyed it. -/
def projHitShips (P : MathPrims) (dmg : ℚ) (proj : LaserProjectile) :
    List Starship → Option (List Starship × Starship × Bool)
  | [] => none
  | s :: rest =>
    if s.faction = proj.faction then
      (projHitShips P dmg proj rest).map (fun r => (s :: r.1, r.2))
    else if s.health ≤ 0 then
      (projHitShips P dmg proj rest).map (fun r => (s :: r.1, r.2))
    else
      let dx := proj.x - s.x
      let dy := proj.y - s.y
      let dist := P.sqrt (dx * dx + dy * dy)
      if dist ≤ s.size then
        let h := s.health - dmg
        let s' := { s with health := if h ≤ 0 then 0 else h }
        some (s' :: rest, s', decide (h ≤ 0))
      else
        (projHitShips P dmg proj rest).map (fun r => (s :: r.1, r.2))

/-- Accumulator of the `checkCollisions` pass: the mutable fields it touches
plus the `projectilesToRemove` set (as a list of ids). -/
structure CollisionPass where
  ships : List Starship
  explosions : List Explosion
  respawnQueue : List RespawnEntry
  nextId : ℕ
  rngIndex : ℕ
  removed : List ℕ
deriving DecidableEq, Repr

/-- Outer `for (const projectile of this.state.projectiles)` loop of
`checkCollisions`, source lines 152-186. -/
def collisionLoop (P : MathPrims) (cfg : BattleConfig) (now : ℚ) :
    List LaserProjectile → CollisionPass → CollisionPass
  | [], acc => acc
  | p :: rest, acc =>
    if p.id ∈ acc.removed then collisionLoop P cfg now rest acc
    else
      match projHitShips P cfg.projectileDamage p acc.ships with
      | none => collisionLoop P cfg now rest acc
      | some hit =>
        let acc1 : CollisionPass :=
          { acc with
            ships := hit.1
            explosions :=
              acc.explosions ++ [createExplosion P now acc.nextId acc.rngIndex p.x p.y]
            nextId := acc.nextId + 1
            rngIndex := acc.rngIndex + 1
            removed := acc.removed ++ [p.id] }
        let acc2 : CollisionPass :=
          if hit.2.2 then
            { acc1 with
              explosions := acc1.explosions ++
                [createExplosion P now acc1.nextId acc1.rngIndex hit.2.1.x hit.2.1.y]
              nextId := acc1.nextId + 1
              rngIndex := acc1.rngIndex + 1
              respawnQueue := acc1.respawnQueue ++
                [{ faction := hit.2.1.faction, respawnAt := now + cfg.respawnDelay }] }
          else acc1
        collisionLoop P cfg now rest acc2

/-- `checkCollisions`, source lines 149-192: run the pass, then filter the
collided projectiles out (source lines 189-191). -/
def checkCollisions (P : MathPrims) (e : Engine) : Engine :=
  let pass := collisionLoop P e.config e.currentTime e.projectiles
    { ships := e.ships
      explosions := e.explosions
      respawnQueue := e.respawnQueue
      nextId := e.nextId
      rngIndex := e.rngIndex
      removed := [] }
  { e with
    ships := pass.ships
    explosions := pass.explosions
    respawnQueue := pass.respawnQueue
    nextId := pass.nextId
    rngIndex := pass.rngIndex
    projectiles := e.projectiles.filter (fun p => decide (¬ p.id ∈ pass.removed)) }

/-- Body of the `updateProjectiles` filter, source lines 294-310: move the
projectile, then drop it when out of bounds (50-unit margin) or older than the
5000 ms `maxLifetime`. -/
def stepProjectile (cfg : BattleConfig) (now dt : ℚ) (proj : LaserProjectile) :
    Option LaserProjectile :=
  let p := { proj with x := proj.x + proj.vx * dt, y := proj.y + proj.vy * dt }
  if p.x < -50 ∨ p.x > cfg.canvasWidth + 50 ∨ p.y < -50 ∨ p.y > cfg.canvasHeight + 50 then
    none
  else if now - p.createdAt > 5000 then none
  else some p

/-- `updateProjectiles`, source lines 290-311. -/
def updateProjectiles (e : Engine) (dt : ℚ) : Engine :=
  { e with
    projectiles := e.projectiles.filterMap (stepProjectile e.config e.currentTime dt) }

/-- Body of the `updateExplosions` filter, source lines 316-324: recompute
`radius` and `opacity` from the progress and drop the explosion once the
progress reaches 1. -/
def stepExplosion (dur now : ℚ) (ex : Explosion) : Option Explosion :=
  let age := now - ex.createdAt
  let progress := min (age / dur) 1
  let ex' := { ex with radius := ex.maxRadius * progress, opacity := 1 - progress }
  if progress < 1 then some ex' else none

/-- `updateExplosions`, source lines 313-325. -/
def updateExplosions (e : Engine) : Engine :=
  { e with
    explosions :=
      e.explosions.filterMap (stepExplosion e.config.explosionDuration e.currentTime) }

/-- `findNearestEnemy`, source lines 340-359 (`nearestDist` starts at
`Infinity`, so the first living enemy always replaces the empty accumulator). -/
def findNearestEnemy (P : MathPrims) (ships : List Starship) (ship : Starship) :
    Option Starship :=
  (ships.foldl (fun acc other =>
    if other.faction = ship.faction then acc
    else if other.health ≤ 0 then acc
    else
      let dx := other.x - ship.x
      let dy := other.y - ship.y
      let dist := P.sqrt (dx * dx + dy * dy)
      match acc with
      | none => some (other, dist)
      | some pr => if dist < pr.2 then some (other, dist) else acc) none).map
    Prod.fst

/-- Per-ship body of the `updateShips` loop, source lines 249-286: steer toward
the nearest enemy (when there is one at positive distance), move, and wrap at
the canvas edges.  `all` is the ship array as the loop sees it at this point
(earlier entries already updated). -/
def updateOneShip (P : MathPrims) (cfg : BattleConfig) (dt : ℚ)
    (all : List Starship) (ship : Starship) : Starship :=
  let ship1 :=
    match findNearestEnemy P all ship with
    | none => ship
    | some target =>
      let dx := target.x - ship.x
      let dy := target.y - ship.y
      let dist := P.sqrt (dx * dx + dy * dy)
      if dist > 0 then
        let desiredAngle := P.atan2 dy dx
        let angleDiff := normalizeAngle P (desiredAngle - ship.rotation)
        let maxTurn := 2 * dt
        let rot := ship.rotation + max (-maxTurn) (min maxTurn angleDiff)
        let mag := P.sqrt (ship.vx * ship.vx + ship.vy * ship.vy)
        let speed := if mag = 0 then cfg.shipSpeed else mag
        { ship with rotation := rot, vx := P.cos rot * speed, vy := P.sin rot * speed }
      else ship
  let ship2 := { ship1 with x := ship1.x + ship1.vx * dt, y := ship1.y + ship1.vy * dt }
  let x1 := if ship2.x < 0 then ship2.x + cfg.canvasWidth else ship2.x
  let x2 := if x1 > cfg.canvasWidth then x1 - cfg.canvasWidth else x1
  let y1 := if ship2.y < 0 then ship2.y + cfg.canvasHeight else ship2.y
  let y2 := if y1 > cfg.canvasHeight then y1 - cfg.canvasHeight else y1
  { ship2 with x := x2, y := y2 }

/-- The `updateShips` loop, source lines 249-287: the JS loop mutates the array
entries in place, so when ship `i` is processed the entries before `i` are
already updated; `done` is that updated segment. -/
def updateShipsAux (P : MathPrims) (cfg : BattleConfig) (dt : ℚ) :
    List Starship → List Starship → List Starship
  | done, [] => done
  | done, s :: rest =>
    if s.health ≤ 0 then updateShipsAux P cfg dt (done ++ [s]) rest
    else updateShipsAux P cfg dt (done ++ [updateOneShip P cfg dt (done ++ s :: rest) s]) rest

/-- `updateShips`, source lines 246-288. -/
def updateShips (P : MathPrims) (e : Engine) (dt : ℚ) : Engine :=
  { e with ships := updateShipsAux P e.config dt [] e.ships }

/-- `autoFire` loop, source lines 361-373, iterating over the ship ids in the
array (looked up afresh because `fireAtTarget` mutates the firing ship). -/
def autoFireAux (P : MathPrims) : List ℕ → Engine → Engine
  | [], e => e
  | sid :: rest, e =>
    match e.ships.find? (fun s => s.id == sid) with
    | none => autoFireAux P rest e
    | some ship =>
      if ship.health ≤ 0 then autoFireAux P rest e
      else if e.currentTime - ship.lastFireTime < e.config.fireRate then
        autoFireAux P rest e
      else
        match findNearestEnemy P e.ships ship with
        | none => autoFireAux P rest e
        | some target => autoFireAux P rest (fireAtTarget P e ship.id target.id)

/-- `autoFire`, source lines 361-373. -/
def autoFire (P : MathPrims) (e : Engine) : Engine :=
  autoFireAux P (e.ships.map (fun s => s.id)) e

/-- `findIndex` + `splice` of `processRespawnQueue`, source lines 381-386:
remove the first destroyed ship of the faction, if any. -/
def removeFirstDead (faction : Faction) : List Starship → List Starship
  | [] => []
  | s :: rest =>
    if s.faction = faction ∧ s.health ≤ 0 then rest
    else s :: removeFirstDead faction rest

/-- The `for (const entry of toRespawn)` loop of `processRespawnQueue`,
source lines 379-389. -/
def respawnLoop (P : MathPrims) : Engine → List RespawnEntry → Engine
  | e, [] => e
  | e, entry :: rest =>
    let fresh := createShip P e.config e.nextId e.rngIndex entry.faction
    respawnLoop P
      { e with
        ships := removeFirstDead entry.faction e.ships ++ [fresh]
        nextId := e.nextId + 1
        rngIndex := e.rngIndex + 4 } rest

/-- `processRespawnQueue`, source lines 375-390. -/
def processRespawnQueue (P : MathPrims) (e : Engine) : Engine :=
  let toRespawn := e.respawnQueue.filter (fun r => decide (e.currentTime ≥ r.respawnAt))
  let remaining := e.respawnQueue.filter (fun r => decide (e.currentTime < r.respawnAt))
  respawnLoop P { e with respawnQueue := remaining } toRespawn

/-- `update`, source lines 105-114. -/
def Engine.update (P : MathPrims) (e : Engine) (dt : ℚ) : Engine :=
  let e1 := { e with currentTime := e.currentTime + dt * 1000 }
  let e2 := updateShips P e1 dt
  let e3 := updateProjectiles e2 dt
  let e4 := checkCollisions P e3
  let e5 := updateExplosions e4
  let e6 := processRespawnQueue P e5
  autoFire P e6

/-- The public mutating methods of `BattleEngine`. -/
inductive Action where
  | update (dt : ℚ)
  | fire (shipId targetId : ℕ)
  | collide
  | reset
deriving DecidableEq, Repr

def applyAction (P : MathPrims) (e : Engine) : Action → Engine
  | Action.update dt => Engine.update P e dt
  | Action.fire a b => fireAtTarget P e a b
  | Action.collide => checkCollisions P e
  | Action.reset => Engine.reset P e

/-- Run a sequence of public calls on the engine. -/
def runActions (P : MathPrims) (e : Engine) : List Action → Engine
  | [] => e
  | a :: rest => runActions P (applyAction P e a) rest

/-!
## Reference semantics of `getState` (source lines 96-102)

`getState` returns `{ ships: [...this.state.ships], projectiles: [...],
explosions: [...] }`: three freshly allocated arrays whose elements are the
very record objects held by the engine.  To settle the snapshot-isolation
claim the JS heap structure matters, so this part is modelled explicitly:
records live in per-kind stores addressed by numeric references, arrays live
in an array store and hold record references, and both the engine's internal
`this.state` and a returned snapshot are triples of array references.
-/

/-- The JS heap: the record objects of each kind, and the arrays of record
references.  A reference is an index into the respective store. -/
structure Heap where
  shipRecs : List Starship
  projRecs : List LaserProjectile
  explRecs : List Explosion
  arrays : List (List ℕ)
deriving DecidableEq, Repr

/-- A `{ ships, projectiles, explosions }` triple of array references: the
shape of both `this.state` and of the object `getState` returns. -/
structure StateRefs where
  ships : ℕ
  projectiles : ℕ
  explosions : ℕ
deriving DecidableEq, Repr

/-- Read an array from the heap. -/
def getArray (h : Heap) (r : ℕ) : List ℕ :=
  h.arrays.getD r []

/-- Allocate a fresh array with the given contents. -/
def allocArray (h : Heap) (contents : List ℕ) : Heap × ℕ :=
  ({ h with arrays := h.arrays ++ [contents] }, h.arrays.length)

/-- `getState`, source lines 96-102: three fresh arrays (`[...spread]`), each
containing the same record references as the engine's internal array. -/
def getState (h : Heap) (E : StateRefs) : Heap × StateRefs :=
  let s := allocArray h (getArray h E.ships)
  let p := allocArray s.1 (getArray s.1 E.projectiles)
  let x := allocArray p.1 (getArray p.1 E.explosions)
  (x.1, { ships := s.2, projectiles := p.2, explosions := x.2 })

/-- External mutation `shipRecord.health = v` through a record reference. -/
def writeShipHealth (h : Heap) (r : ℕ) (v : ℚ) : Heap :=
  match h.shipRecs.get? r with
  | none => h
  | some s => { h with shipRecs := h.shipRecs.set r { s with health := v } }

/-- External mutation `array[i] = v` of an array of record references. -/
def writeArrayElem (h : Heap) (r i v : ℕ) : Heap :=
  { h with arrays := h.arrays.set r ((h.arrays.getD r []).set i v) }

/-- External mutation `array.push(v)` of an array of record references. -/
def pushArrayElem (h : Heap) (r v : ℕ) : Heap :=
  { h with arrays := h.arrays.set r ((h.arrays.getD r []) ++ [v]) }

/-- Dereference an array of ship references to the ship values it denotes. -/
def derefShips (h : Heap) (r : ℕ) : List Starship :=
  (getArray h r).filterMap (fun i => h.shipRecs.get? i)

def derefProjs (h : Heap) (r : ℕ) : List LaserProjectile :=
  (getArray h r).filterMap (fun i => h.projRecs.get? i)

def derefExpls (h : Heap) (r : ℕ) : List Explosion :=
  (getArray h r).filterMap (fun i => h.explRecs.get? i)

/-- The battle state, as values, that a `{ ships, projectiles, explosions }`
triple of array references denotes on a heap. -/
def observe (h : Heap) (E : StateRefs) : BattleState :=
  { ships := derefShips h E.ships
    projectiles := derefProjs h E.projectiles
    explosions := derefExpls h E.explosions }

/-!
## Concrete instances for evaluation
-/

/-- A concrete, fully computable `MathPrims` instance used to evaluate the
engine on explicit inputs in the witnesses below. -/
def TestPrims : MathPrims :=
  { sqrt := fun x => if 0 < x then 1 else 0
    cos := fun _ => 1
    sin := fun _ => 0
    atan2 := fun _ _ => 0
    pi := 3
    random := fun _ => 0
    sqrt_zero := by norm_num
    random_nonneg := fun _ => le_refl 0
    random_lt_one := fun _ => by norm_num
    pi_pos := by norm_num }

/-- A rebel ship at (10, 10) used for concrete evaluation. -/
def shipW0 : Starship :=
  { id := 0, x := 10, y := 10, vx := 0, vy := 0, rotation := 0,
    faction := Faction.rebel, health := 100, lastFireTime := 0, size := 20 }

/-- An imperial ship at the same point (10, 10). -/
def shipW1 : Starship :=
  { id := 1, x := 10, y := 10, vx := 0, vy := 0, rotation := 0,
    faction := Faction.imperial, health := 100, lastFireTime := 0, size := 20 }

/-- A small concrete engine state with one ship of each faction. -/
def engW : Engine :=
  { config := DEFAULT_BATTLE_CONFIG, ships := [shipW0, shipW1], projectiles := [],
    explosions := [], currentTime := 0, respawnQueue := [], nextId := 2, rngIndex := 0 }

/-- A motionless projectile at the canvas centre. -/
def projW : LaserProjectile :=
  { id := 5, x := 960, y := 540, vx := 0, vy := 0, faction := Faction.rebel,
    targetId := 9, createdAt := 0 }

/-- An engine with no ships and a single projectile. -/
def engP : Engine :=
  { config := DEFAULT_BATTLE_CONFIG, ships := [], projectiles := [projW],
    explosions := [], currentTime := 0, respawnQueue := [], nextId := 6, rngIndex := 0 }

/-- A concrete heap holding one ship record; the engine state references are
arrays 0, 1, 2. -/
def heapW : Heap :=
  { shipRecs := [shipW0], projRecs := [], explRecs := [], arrays := [[0], [], []] }

def refsW : StateRefs := { ships := 0, projectiles := 1, explosions := 2 }

/-!
## C7 and C10: the no-op paths of `fireAtTarget`
-/

/-- C7: `fireAtTarget(shipId, targetId)` is a silent no-op — it creates no
projectile, modifies no state, and raises no error — whenever either id
matches no ship in the collection, or either matched ship has health ≤ 0
(source lines 121-122). -/
theorem fireAtTarget_invalid_noop (P : MathPrims) (e : Engine) (a b : ℕ)
    (h : (∀ s ∈ e.ships, s.id ≠ a) ∨ (∀ s ∈ e.ships, s.id ≠ b) ∨
      (∃ s, e.ships.find? (fun x => x.id == a) = some s ∧ s.health ≤ 0) ∨
      (∃ s, e.ships.find? (fun x => x.id == b) = some s ∧ s.health ≤ 0)) :
    fireAtTarget P e a b = e := by
  unfold fireAtTarget
  cases hfa : e.ships.find? (fun s => s.id == a) with
  | none => rfl
  | some ship =>
    cases hfb : e.ships.find? (fun s => s.id == b) with
    | none => rfl
    | some target =>
      have hcond : ship.health ≤ 0 ∨ target.health ≤ 0 := by
        rcases h with h | h | ⟨s, hs, hh⟩ | ⟨s, hs, hh⟩
        · have hmem := List.mem_of_find?_eq_some hfa
          have hid := List.find?_some hfa
          simp only [beq_iff_eq] at hid
          exact absurd hid (h ship hmem)
        · have hmem := List.mem_of_find?_eq_some hfb
          have hid := List.find?_some hfb
          simp only [beq_iff_eq] at hid
          exact absurd hid (h target hmem)
        · rw [hfa] at hs
          exact Or.inl (Option.some_injective _ hs ▸ hh)
        · rw [hfb] at hs
          exact Or.inr (Option.some_injective _ hs ▸ hh)
      dsimp only
      rw [if_pos hcond]

/-- C7 witness: firing with an id (99) that matches no ship in a concrete
engine is a no-op. -/
theorem fireAtTarget_invalid_noop_witness :
    ((∀ s ∈ engW.ships, s.id ≠ 99) ∨ (∀ s ∈ engW.ships, s.id ≠ 0) ∨
      (∃ s, engW.ships.find? (fun x => x.id == 99) = some s ∧ s.health ≤ 0) ∨
      (∃ s, engW.ships.find? (fun x => x.id == 0) = some s ∧ s.health ≤ 0)) ∧
    fireAtTarget TestPrims engW 99 0 = engW :=
  ⟨Or.inl (by decide), fireAtTarget_invalid_noop TestPrims engW 99 0 (Or.inl (by decide))⟩

/-- C10: `fireAtTarget` is also a silent no-op when both ships exist and are
alive but occupy exactly the same position: `dist === 0` (source line 128)
returns before the projectile push and before `lastFireTime` is set. -/
theorem fireAtTarget_same_position_noop (P : MathPrims) (e : Engine) (a b : ℕ)
    (s t : Starship)
    (hs : e.ships.find? (fun x => x.id == a) = some s)
    (ht : e.ships.find? (fun x => x.id == b) = some t)
    (hsh : 0 < s.health) (hth : 0 < t.health)
    (hx : s.x = t.x) (hy : s.y = t.y) :
    fireAtTarget P e a b = e := by
  unfold fireAtTarget
  rw [hs, ht]
  have hcond : ¬ (s.health ≤ 0 ∨ t.health ≤ 0) := by
    push_neg
    exact ⟨hsh, hth⟩
  dsimp only
  rw [if_neg hcond]
  have hdx : t.x - s.x = 0 := by rw [hx, sub_self]
  have hdy : t.y - s.y = 0 := by rw [hy, sub_self]
  simp [hdx, hdy, P.sqrt_zero]

/-- C10 witness: two live ships at the same point (10, 10); firing from one at
the other changes nothing. -/
theorem fireAtTarget_same_position_noop_witness :
    engW.ships.find? (fun x => x.id == 0) = some shipW0 ∧
    engW.ships.find? (fun x => x.id == 1) = some shipW1 ∧
    0 < shipW0.health ∧ 0 < shipW1.health ∧
    shipW0.x = shipW1.x ∧ shipW0.y = shipW1.y ∧
    fireAtTarget TestPrims engW 0 1 = engW :=
  ⟨rfl, rfl, by norm_num [shipW0], by norm_num [shipW1], rfl, rfl,
    fireAtTarget_same_position_noop TestPrims engW 0 1 shipW0 shipW1 rfl rfl
      (by norm_num [shipW0]) (by norm_num [shipW1]) rfl rfl⟩

/-!
## C1: `getState` snapshot isolation
-/

/-- C1 counterexample: `getState` copies only the arrays (`[...spread]`), not
the records.  On a concrete heap, writing `health = 0` through the ship record
reference obtained from the snapshot's `ships` array changes both the engine's
observable state and the value denoted by the next `getState` snapshot. -/
theorem getState_record_mutation_leaks :
    let g1 := getState heapW refsW
    let r := (getArray g1.1 g1.2.ships).getD 0 0
    let h2 := writeShipHealth g1.1 r 0
    let g2 := getState h2 refsW
    observe h2 refsW ≠ observe g1.1 refsW ∧
      observe g2.1 g2.2 ≠ observe g1.1 g1.2 := by
  decide

/-- Reading an array other than the one `set` touched is unchanged. -/
lemma getArray_set_ne (H : Heap) (r q : ℕ) (c : List ℕ) (hne : q ≠ r) :
    getArray { H with arrays := H.arrays.set r c } q = getArray H q := by
  unfold getArray
  simp only [List.getD_eq_getElem?_getD]
  rw [List.getElem?_set_ne (Ne.symm hne)]

/-- Mutating an array the engine state does not reference leaves the engine's
observable state unchanged. -/
lemma observe_set_array_ne (H : Heap) (E : StateRefs) (r : ℕ) (c : List ℕ)
    (h1 : E.ships ≠ r) (h2 : E.projectiles ≠ r) (h3 : E.explosions ≠ r) :
    observe { H with arrays := H.arrays.set r c } E = observe H E := by
  unfold observe derefShips derefProjs derefExpls
  rw [getArray_set_ne H r E.ships c h1, getArray_set_ne H r E.projectiles c h2,
    getArray_set_ne H r E.explosions c h3]

/-- The references `getState` returns are the three freshly allocated arrays
(at indices `length`, `length+1`, `length+2` of the array store), and the
record stores are untouched. -/
lemma getState_parts (h : Heap) (E : StateRefs) :
    (getState h E).2.ships = h.arrays.length ∧
    (getState h E).2.projectiles = h.arrays.length + 1 ∧
    (getState h E).2.explosions = h.arrays.length + 2 := by
  simp [getState, allocArray]

/-- C1 amended: the arrays returned by `getState` are fresh, so mutating the
snapshot's own arrays (replacing an element, or pushing one) never changes the
engine's observable state; only the shared records are not isolated. -/
theorem getState_array_mutation_isolated (h : Heap) (E : StateRefs)
    (hs : E.ships < h.arrays.length) (hp : E.projectiles < h.arrays.length)
    (he : E.explosions < h.arrays.length) (r i v : ℕ)
    (hr : r = (getState h E).2.ships ∨ r = (getState h E).2.projectiles ∨
      r = (getState h E).2.explosions) :
    observe (writeArrayElem (getState h E).1 r i v) E = observe (getState h E).1 E ∧
    observe (pushArrayElem (getState h E).1 r v) E = observe (getState h E).1 E := by
  obtain ⟨e1, e2, e3⟩ := getState_parts h E
  have hge : h.arrays.length ≤ r := by
    rcases hr with hr | hr | hr <;> omega
  have h1 : E.ships ≠ r := by omega
  have h2 : E.projectiles ≠ r := by omega
  have h3 : E.explosions ≠ r := by omega
  constructor
  · exact observe_set_array_ne _ E r _ h1 h2 h3
  · exact observe_set_array_ne _ E r _ h1 h2 h3

/-- C1 amended witness: on the concrete heap, overwriting element 0 of the
snapshot's fresh `ships` array (and pushing onto it) leaves the engine's
observable state unchanged. -/
theorem getState_array_mutation_isolated_witness :
    refsW.ships < heapW.arrays.length ∧ refsW.projectiles < heapW.arrays.length ∧
    refsW.explosions < heapW.arrays.length ∧
    ((3 : ℕ) = (getState heapW refsW).2.ships ∨
      3 = (getState heapW refsW).2.projectiles ∨ 3 = (getState heapW refsW).2.explosions) ∧
    observe (writeArrayElem (getState heapW refsW).1 3 0 0) refsW =
      observe (getState heapW refsW).1 refsW ∧
    observe (pushArrayElem (getState heapW refsW).1 3 0) refsW =
      observe (getState heapW refsW).1 refsW :=
  ⟨by decide, by decide, by decide, Or.inl (by decide),
    getState_array_mutation_isolated heapW refsW (by decide) (by decide) (by decide)
      3 0 0 (Or.inl (by decide))⟩

/-!
## Frame lemmas: which fields each pipeline stage can touch
-/

lemma respawnLoop_frame (P : MathPrims) :
    ∀ (ts : List RespawnEntry) (e : Engine),
      (respawnLoop P e ts).projectiles = e.projectiles ∧
      (respawnLoop P e ts).explosions = e.explosions ∧
      (respawnLoop P e ts).currentTime = e.currentTime ∧
      (respawnLoop P e ts).config = e.config ∧
      (respawnLoop P e ts).respawnQueue = e.respawnQueue := by
  intro ts
  induction ts with
  | nil => exact fun e => ⟨rfl, rfl, rfl, rfl, rfl⟩
  | cons t rest ih =>
    intro e
    exact ih _

lemma processRespawnQueue_frame (P : MathPrims) (e : Engine) :
    (processRespawnQueue P e).projectiles = e.projectiles ∧
    (processRespawnQueue P e).explosions = e.explosions ∧
    (processRespawnQueue P e).currentTime = e.currentTime ∧
    (processRespawnQueue P e).config = e.config := by
  obtain ⟨h1, h2, h3, h4, _⟩ := respawnLoop_frame P
    (e.respawnQueue.filter (fun r => decide (e.currentTime ≥ r.respawnAt)))
    { e with respawnQueue := e.respawnQueue.filter (fun r => decide (e.currentTime < r.respawnAt)) }
  exact ⟨h1, h2, h3, h4⟩

lemma fireAtTarget_frame (P : MathPrims) (e : Engine) (a b : ℕ) :
    (fireAtTarget P e a b).currentTime = e.currentTime ∧
    (fireAtTarget P e a b).config = e.config ∧
    (fireAtTarget P e a b).explosions = e.explosions ∧
    (fireAtTarget P e a b).respawnQueue = e.respawnQueue ∧
    ∀ p ∈ (fireAtTarget P e a b).projectiles,
      p ∈ e.projectiles ∨ p.createdAt = e.currentTime := by
  unfold fireAtTarget
  cases e.ships.find? (fun s => s.id == a) with
  | none => exact ⟨rfl, rfl, rfl, rfl, fun p hp => Or.inl hp⟩
  | some ship =>
    cases e.ships.find? (fun s => s.id == b) with
    | none => exact ⟨rfl, rfl, rfl, rfl, fun p hp => Or.inl hp⟩
    | some target =>
      dsimp only
      split
      · exact ⟨rfl, rfl, rfl, rfl, fun p hp => Or.inl hp⟩
      · split
        · exact ⟨rfl, rfl, rfl, rfl, fun p hp => Or.inl hp⟩
        · refine ⟨rfl, rfl, rfl, rfl, fun p hp => ?_⟩
          rcases List.mem_append.mp hp with h | h
          · exact Or.inl h
          · rw [List.mem_singleton.mp h]
            exact Or.inr rfl

lemma autoFireAux_frame (P : MathPrims) :
    ∀ (ids : List ℕ) (e : Engine),
      (autoFireAux P ids e).currentTime = e.currentTime ∧
      (autoFireAux P ids e).config = e.config ∧
      (autoFireAux P ids e).explosions = e.explosions ∧
      (autoFireAux P ids e).respawnQueue = e.respawnQueue ∧
      ∀ p ∈ (autoFireAux P ids e).projectiles,
        p ∈ e.projectiles ∨ p.createdAt = e.currentTime := by
  intro ids
  induction ids with
  | nil => exact fun e => ⟨rfl, rfl, rfl, rfl, fun p hp => Or.inl hp⟩
  | cons sid rest ih =>
    intro e
    unfold autoFireAux
    cases e.ships.find? (fun s => s.id == sid) with
    | none => exact ih e
    | some ship =>
      dsimp only
      split
      · exact ih e
      · split
        · exact ih e
        · cases findNearestEnemy P e.ships ship with
          | none => exact ih e
          | some target =>
            dsimp only
            obtain ⟨f1, f2, f3, f4, f5⟩ := fireAtTarget_frame P e ship.id target.id
            obtain ⟨g1, g2, g3, g4, g5⟩ := ih (fireAtTarget P e ship.id target.id)
            refine ⟨g1.trans f1, g2.trans f2, g3.trans f3, g4.trans f4, fun p hp => ?_⟩
            rcases g5 p hp with hin | hct
            · rcases f5 p hin with hin2 | hct2
              · exact Or.inl hin2
              · exact Or.inr hct2
            · exact Or.inr (hct.trans f1)

lemma checkCollisions_proj_sub (P : MathPrims) (f : Engine) :
    ∀ p ∈ (checkCollisions P f).projectiles, p ∈ f.projectiles := by
  intro p hp
  unfold checkCollisions at hp
  dsimp only at hp
  exact List.mem_of_mem_filter hp

/-- The three stages following `updateProjectiles` inside `update` can only
drop projectiles or add fresh ones stamped with the current clock, and they
leave the clock and config alone. -/
lemma post_pipeline_proj (P : MathPrims) (f : Engine) :
    (∀ p ∈ (autoFire P (processRespawnQueue P (updateExplosions (checkCollisions P f)))).projectiles,
      p ∈ f.projectiles ∨ p.createdAt = f.currentTime) ∧
    (autoFire P (processRespawnQueue P (updateExplosions (checkCollisions P f)))).currentTime
      = f.currentTime ∧
    (autoFire P (processRespawnQueue P (updateExplosions (checkCollisions P f)))).config
      = f.config := by
  obtain ⟨a1, a2, _, _, a5⟩ := autoFireAux_frame P
    ((processRespawnQueue P (updateExplosions (checkCollisions P f))).ships.map (fun s => s.id))
    (processRespawnQueue P (updateExplosions (checkCollisions P f)))
  obtain ⟨r1, r2, r3, r4⟩ := processRespawnQueue_frame P (updateExplosions (checkCollisions P f))
  refine ⟨?_, ?_, ?_⟩
  · intro p hp
    rcases a5 p hp with h | h
    · rw [r1] at h
      exact Or.inl (checkCollisions_proj_sub P f p h)
    · rw [r3] at h
      exact Or.inr h
  · exact (a1.trans r3)
  · exact (a2.trans r4)

lemma update_fields (P : MathPrims) (e : Engine) (dt : ℚ) :
    (Engine.update P e dt).currentTime = e.currentTime + dt * 1000 ∧
    (Engine.update P e dt).config = e.config := by
  obtain ⟨_, h2, h3⟩ :=
    post_pipeline_proj P (updateProjectiles (updateShips P { e with currentTime := e.currentTime + dt * 1000 } dt) dt)
  exact ⟨h2, h3⟩

/-!
## C6: projectile expiry
-/

lemma stepProjectile_bound (cfg : BattleConfig) (now dt : ℚ)
    (q p : LaserProjectile) (h : stepProjectile cfg now dt q = some p) :
    now - p.createdAt ≤ 5000 := by
  unfold stepProjectile at h
  dsimp only at h
  split at h
  · exact absurd h (by simp)
  · split at h
    · exact absurd h (by simp)
    · next hold =>
      rw [Option.some_inj] at h
      push_neg at hold
      rw [← h]
      exact hold

/-- C6: after any complete `update` call, every projectile in the state is at
most 5000 ms (the `maxLifetime` of source line 292) older than the simulation
clock; older ones were removed by the `updateProjectiles` filter. -/
theorem projectile_expiry (P : MathPrims) (e : Engine) (dt : ℚ) :
    ∀ p ∈ (Engine.update P e dt).projectiles,
      (Engine.update P e dt).currentTime - p.createdAt ≤ 5000 := by
  intro p hp
  rw [(update_fields P e dt).1]
  have hb : ∀ q ∈ (updateProjectiles
      (updateShips P { e with currentTime := e.currentTime + dt * 1000 } dt) dt).projectiles,
      e.currentTime + dt * 1000 - q.createdAt ≤ 5000 := by
    intro q hq
    unfold updateProjectiles at hq
    dsimp only at hq
    obtain ⟨q0, _, hstep⟩ := List.mem_filterMap.mp hq
    exact stepProjectile_bound _ _ _ _ _ hstep
  have hp' : p ∈ (autoFire P (processRespawnQueue P (updateExplosions (checkCollisions P
      (updateProjectiles (updateShips P { e with currentTime := e.currentTime + dt * 1000 } dt) dt))))).projectiles := hp
  obtain ⟨m1, _, _⟩ := post_pipeline_proj P
    (updateProjectiles (updateShips P { e with currentTime := e.currentTime + dt * 1000 } dt) dt)
  rcases m1 p hp' with h | h
  · exact hb p h
  · rw [h]
    show e.currentTime + dt * 1000 - (e.currentTime + dt * 1000) ≤ 5000
    norm_num

/-- C6 witness: a concrete engine with one projectile; after `update 1` the
projectile is present and within the 5000 ms lifetime. -/
theorem projectile_expiry_witness :
    projW ∈ (Engine.update TestPrims engP 1).projectiles ∧
    (Engine.update TestPrims engP 1).currentTime - projW.createdAt ≤ 5000 := by
  have hupd : Engine.update TestPrims engP 1 = { engP with currentTime := 1000 } := by
    have h1 : stepProjectile DEFAULT_BATTLE_CONFIG 1000 1 projW = some projW := by
      norm_num [stepProjectile, projW, DEFAULT_BATTLE_CONFIG]
    norm_num only [Engine.update, updateShips, updateShipsAux, updateProjectiles, engP]
    norm_num only [List.filterMap_cons, List.filterMap_nil, h1]
    norm_num [checkCollisions, collisionLoop, projHitShips, updateExplosions,
      processRespawnQueue, respawnLoop, autoFire, autoFireAux, List.filter]
  have hmem : projW ∈ (Engine.update TestPrims engP 1).projectiles := by
    rw [hupd]
    exact List.mem_singleton.mpr rfl
  exact ⟨hmem, projectile_expiry TestPrims engP 1 projW hmem⟩

/-!
## C5: explosion fade monotonicity and bounds
-/

lemma collisionLoop_expl_mem (P : MathPrims) (cfg : BattleConfig) (now : ℚ) :
    ∀ (ps : List LaserProjectile) (acc : CollisionPass) (x : Explosion),
      x ∈ acc.explosions → x ∈ (collisionLoop P cfg now ps acc).explosions := by
  intro ps
  induction ps with
  | nil => exact fun acc x hx => hx
  | cons p rest ih =>
    intro acc x hx
    unfold collisionLoop
    split
    · exact ih acc x hx
    · cases hhit : projHitShips P cfg.projectileDamage p acc.ships with
      | none => exact ih acc x hx
      | some hit =>
        dsimp only
        cases hd : hit.2.2 with
        | false =>
          simp only [hd, Bool.false_eq_true, if_false]
          exact ih _ x (List.mem_append_left _ hx)
        | true =>
          simp only [hd, if_true]
          exact ih _ x (List.mem_append_left _ (List.mem_append_left _ hx))

lemma checkCollisions_expl_mem (P : MathPrims) (f : Engine) :
    ∀ x ∈ f.explosions, x ∈ (checkCollisions P f).explosions := by
  intro x hx
  unfold checkCollisions
  dsimp only
  exact collisionLoop_expl_mem P f.config f.currentTime f.projectiles _ x hx

lemma stepExplosion_some (dur now : ℚ) (ex ex1 : Explosion)
    (h : stepExplosion dur now ex = some ex1) :
    ex1 = { ex with radius := ex.maxRadius * min ((now - ex.createdAt) / dur) 1,
                    opacity := 1 - min ((now - ex.createdAt) / dur) 1 } ∧
    min ((now - ex.createdAt) / dur) 1 < 1 := by
  unfold stepExplosion at h
  dsimp only at h
  split at h
  · next hlt => exact ⟨(Option.some_inj.mp h).symm, hlt⟩
  · exact absurd h (by simp)

lemma stepExplosion_none_iff (dur now : ℚ) (ex : Explosion) :
    stepExplosion dur now ex = none ↔ 1 ≤ (now - ex.createdAt) / dur := by
  unfold stepExplosion
  dsimp only
  split
  · next hlt =>
    simp only [reduceCtorEq, false_iff, not_le]
    rcases min_lt_iff.mp hlt with h1 | h1
    · exact h1
    · exact absurd h1 (lt_irrefl 1)
  · next hge =>
    simp only [true_iff]
    have h1 : 1 ≤ min ((now - ex.createdAt) / dur) 1 := le_of_not_lt hge
    exact (le_min_iff.mp h1).1

/-- An explosion present before an `update` that its filter keeps is present,
in its recomputed form, after the `update`. -/
lemma update_explosion_mem (P : MathPrims) (e : Engine) (dt : ℚ) (ex ex1 : Explosion)
    (hmem : ex ∈ e.explosions)
    (hstep : stepExplosion e.config.explosionDuration (e.currentTime + dt * 1000) ex = some ex1) :
    ex1 ∈ (Engine.update P e dt).explosions := by
  have hmem2 : ex ∈ (checkCollisions P (updateProjectiles
      (updateShips P { e with currentTime := e.currentTime + dt * 1000 } dt) dt)).explosions :=
    checkCollisions_expl_mem P
      (updateProjectiles (updateShips P { e with currentTime := e.currentTime + dt * 1000 } dt) dt)
      ex hmem
  have hmem3 : ex1 ∈ (updateExplosions (checkCollisions P (updateProjectiles
      (updateShips P { e with currentTime := e.currentTime + dt * 1000 } dt) dt))).explosions := by
    unfold updateExplosions
    dsimp only
    exact List.mem_filterMap.mpr ⟨ex, hmem2, hstep⟩
  show ex1 ∈ (autoFireAux P ((processRespawnQueue P (updateExplosions (checkCollisions P
    (updateProjectiles (updateShips P { e with currentTime := e.currentTime + dt * 1000 } dt)
      dt)))).ships.map (fun s => s.id))
    (processRespawnQueue P (updateExplosions (checkCollisions P
    (updateProjectiles (updateShips P { e with currentTime := e.currentTime + dt * 1000 } dt)
      dt))))).explosions
  obtain ⟨_, _, a3, _, _⟩ := autoFireAux_frame P _ _
  rw [a3]
  obtain ⟨_, r2, _, _⟩ := processRespawnQueue_frame P _
  rw [r2]
  exact hmem3

/-- C5: an explosion tracked across two consecutive `update` calls with
non-negative `deltaTime` has non-decreasing `radius` and non-increasing
`opacity`, both within their bounds (`opacity ∈ [0,1]`,
`radius ∈ [0, maxRadius]`), and the `updateExplosions` filter removes it
exactly when its progress `(now - createdAt) / explosionDuration` reaches 1. -/
theorem explosion_fade (P : MathPrims) (e : Engine) (dt1 dt2 : ℚ) (ex ex1 ex2 : Explosion)
    (hdur : 0 < e.config.explosionDuration)
    (hmr : 0 ≤ ex.maxRadius)
    (hct : ex.createdAt ≤ e.currentTime)
    (hdt1 : 0 ≤ dt1) (hdt2 : 0 ≤ dt2)
    (hmem : ex ∈ e.explosions)
    (hs1 : stepExplosion e.config.explosionDuration (e.currentTime + dt1 * 1000) ex = some ex1)
    (hs2 : stepExplosion e.config.explosionDuration
      (e.currentTime + dt1 * 1000 + dt2 * 1000) ex1 = some ex2) :
    ex1 ∈ (Engine.update P e dt1).explosions ∧
    ex2 ∈ (Engine.update P (Engine.update P e dt1) dt2).explosions ∧
    ex1.radius ≤ ex2.radius ∧ ex2.opacity ≤ ex1.opacity ∧
    0 ≤ ex1.radius ∧ ex1.radius ≤ ex1.maxRadius ∧ 0 ≤ ex1.opacity ∧ ex1.opacity ≤ 1 ∧
    0 ≤ ex2.radius ∧ ex2.radius ≤ ex2.maxRadius ∧ 0 ≤ ex2.opacity ∧ ex2.opacity ≤ 1 ∧
    (∀ now, stepExplosion e.config.explosionDuration now ex1 = none ↔
      1 ≤ (now - ex1.createdAt) / e.config.explosionDuration) := by
  have hm1 : ex1 ∈ (Engine.update P e dt1).explosions :=
    update_explosion_mem P e dt1 ex ex1 hmem hs1
  have hm2 : ex2 ∈ (Engine.update P (Engine.update P e dt1) dt2).explosions := by
    apply update_explosion_mem P (Engine.update P e dt1) dt2 ex1 ex2 hm1
    obtain ⟨hc1, hc2⟩ := update_fields P e dt1
    rw [hc1, hc2]
    exact hs2
  obtain ⟨he1, _⟩ := stepExplosion_some _ _ _ _ hs1
  obtain ⟨he2, _⟩ := stepExplosion_some _ _ _ _ hs2
  set dur := e.config.explosionDuration with hdurdef
  have hk : (1000 : ℚ) > 0 := by norm_num
  have hage1 : 0 ≤ e.currentTime + dt1 * 1000 - ex.createdAt := by nlinarith
  have hage12 : e.currentTime + dt1 * 1000 - ex.createdAt ≤
      e.currentTime + dt1 * 1000 + dt2 * 1000 - ex.createdAt := by nlinarith
  set p1 := min ((e.currentTime + dt1 * 1000 - ex.createdAt) / dur) 1 with hp1def
  have hp1a : 0 ≤ p1 := le_min (div_nonneg hage1 (le_of_lt hdur)) zero_le_one
  have hp1b : p1 ≤ 1 := min_le_right _ _
  have hcre1 : ex1.createdAt = ex.createdAt := by rw [he1]
  have hmax1 : ex1.maxRadius = ex.maxRadius := by rw [he1]
  set p2 := min ((e.currentTime + dt1 * 1000 + dt2 * 1000 - ex1.createdAt) / dur) 1 with hp2def
  have hage2 : 0 ≤ e.currentTime + dt1 * 1000 + dt2 * 1000 - ex1.createdAt := by
    rw [hcre1]
    linarith
  have hp2a : 0 ≤ p2 := le_min (div_nonneg hage2 (le_of_lt hdur)) zero_le_one
  have hp2b : p2 ≤ 1 := min_le_right _ _
  have hmono : p1 ≤ p2 := by
    apply min_le_min _ (le_refl 1)
    rw [hcre1]
    exact (div_le_div_iff_of_pos_right hdur).mpr hage12
  have hr1 : ex1.radius = ex.maxRadius * p1 := by rw [he1]
  have ho1 : ex1.opacity = 1 - p1 := by rw [he1]
  have hr2 : ex2.radius = ex1.maxRadius * p2 := by rw [he2]
  have ho2 : ex2.opacity = 1 - p2 := by rw [he2]
  have hmax2 : ex2.maxRadius = ex1.maxRadius := by rw [he2]
  refine ⟨hm1, hm2, ?_, ?_, ?_, ?_, ?_, ?_, ?_, ?_, ?_, ?_, ?_⟩
  · rw [hr1, hr2, hmax1]
    exact mul_le_mul_of_nonneg_left hmono hmr
  · rw [ho1, ho2]
    linarith
  · rw [hr1]
    exact mul_nonneg hmr hp1a
  · rw [hr1, hmax1]
    nlinarith
  · rw [ho1]
    linarith
  · rw [ho1]
    linarith
  · rw [hr2, hmax1]
    exact mul_nonneg hmr hp2a
  · rw [hr2, hmax2, hmax1]
    nlinarith
  · rw [ho2]
    linarith
  · rw [ho2]
    linarith
  · intro now
    exact stepExplosion_none_iff dur now ex1

/-- A fresh concrete explosion. -/
def exW : Explosion :=
  { id := 3, x := 0, y := 0, radius := 0, maxRadius := 40, opacity := 1, createdAt := 0 }

/-- `exW` as recomputed at 100 ms (progress 1/5). -/
def exW1 : Explosion :=
  { id := 3, x := 0, y := 0, radius := 8, maxRadius := 40, opacity := 4/5, createdAt := 0 }

/-- `exW` as recomputed at 200 ms (progress 2/5). -/
def exW2 : Explosion :=
  { id := 3, x := 0, y := 0, radius := 16, maxRadius := 40, opacity := 3/5, createdAt := 0 }

/-- An engine with a single fresh explosion. -/
def engE : Engine :=
  { config := DEFAULT_BATTLE_CONFIG, ships := [], projectiles := [],
    explosions := [exW], currentTime := 0, respawnQueue := [], nextId := 4, rngIndex := 0 }

/-- C5 witness: tracking the concrete explosion `exW` across two `update 0.1`
calls: its radius grows 8 → 16 and its opacity fades 4/5 → 3/5. -/
theorem explosion_fade_witness :
    0 < engE.config.explosionDuration ∧ 0 ≤ exW.maxRadius ∧
    exW.createdAt ≤ engE.currentTime ∧ (0:ℚ) ≤ 1/10 ∧ exW ∈ engE.explosions ∧
    stepExplosion engE.config.explosionDuration
      (engE.currentTime + 1/10 * 1000) exW = some exW1 ∧
    stepExplosion engE.config.explosionDuration
      (engE.currentTime + 1/10 * 1000 + 1/10 * 1000) exW1 = some exW2 ∧
    exW1 ∈ (Engine.update TestPrims engE (1/10)).explosions ∧
    exW2 ∈ (Engine.update TestPrims (Engine.update TestPrims engE (1/10)) (1/10)).explosions ∧
    exW1.radius ≤ exW2.radius ∧ exW2.opacity ≤ exW1.opacity := by
  have h1 : stepExplosion engE.config.explosionDuration
      (engE.currentTime + 1/10 * 1000) exW = some exW1 := by
    norm_num [stepExplosion, engE, exW, exW1, DEFAULT_BATTLE_CONFIG, min_def]
  have h2 : stepExplosion engE.config.explosionDuration
      (engE.currentTime + 1/10 * 1000 + 1/10 * 1000) exW1 = some exW2 := by
    norm_num [stepExplosion, engE, exW1, exW2, DEFAULT_BATTLE_CONFIG, min_def]
  obtain ⟨c1, c2, c3, c4, _⟩ := explosion_fade TestPrims engE (1/10) (1/10) exW exW1 exW2
    (by norm_num [engE, DEFAULT_BATTLE_CONFIG])
    (by norm_num [exW])
    (by norm_num [engE, exW])
    (by norm_num) (by norm_num)
    (List.mem_singleton.mpr rfl) h1 h2
  exact ⟨by norm_num [engE, DEFAULT_BATTLE_CONFIG], by norm_num [exW],
    by norm_num [engE, exW], by norm_num, List.mem_singleton.mpr rfl,
    h1, h2, c1, c2, c3, c4⟩

/-!
## C3: no friendly fire
-/

/-- The three reasons the `checkCollisions` inner loop skips a ship for a
projectile: same faction, already destroyed, or out of collision range
(source lines 157-165). -/
def missedBy (P : MathPrims) (p : LaserProjectile) (t : Starship) : Prop :=
  t.faction = p.faction ∨ t.health ≤ 0 ∨
    ¬ P.sqrt ((p.x - t.x) * (p.x - t.x) + (p.y - t.y) * (p.y - t.y)) ≤ t.size

lemma forall2_comp {α β γ : Type} {R1 : α → β → Prop} {R2 : β → γ → Prop}
    {R3 : α → γ → Prop} (h : ∀ a b c, R1 a b → R2 b c → R3 a c) :
    ∀ {l1 : List α} {l2 : List β} {l3 : List γ},
      List.Forall₂ R1 l1 l2 → List.Forall₂ R2 l2 l3 → List.Forall₂ R3 l1 l3 := by
  intro l1 l2 l3 h12
  induction h12 generalizing l3 with
  | nil =>
    intro h23
    cases h23
    exact List.Forall₂.nil
  | cons ha hl ih =>
    intro h23
    cases h23 with
    | cons hb hl2 => exact List.Forall₂.cons (h _ _ _ ha hb) (ih hl2)

lemma forall2_mem_right {α β : Type} {R : α → β → Prop} :
    ∀ {l1 : List α} {l2 : List β}, List.Forall₂ R l1 l2 → ∀ b ∈ l2, ∃ a ∈ l1, R a b := by
  intro l1 l2 h
  induction h with
  | nil =>
    intro b hb
    cases hb
  | cons ha hl ih =>
    intro b hb
    rcases List.mem_cons.mp hb with rfl | hb2
    · exact ⟨_, List.mem_cons_self _ _, ha⟩
    · obtain ⟨a, ha2, hr⟩ := ih b hb2
      exact ⟨a, List.mem_cons_of_mem _ ha2, hr⟩

/-- What a successful inner collision scan means: the ship list splits into a
missed segment, the first hit ship (enemy, alive, within range) replaced by
its damaged copy, and an untouched tail. -/
lemma projHitShips_eq_some (P : MathPrims) (dmg : ℚ) (p : LaserProjectile) :
    ∀ (l : List Starship) (out : List Starship × Starship × Bool),
      projHitShips P dmg p l = some out →
      ∃ pre s post, l = pre ++ s :: post ∧ out.1 = pre ++ out.2.1 :: post ∧
        (∀ t ∈ pre, missedBy P p t) ∧
        ¬ s.faction = p.faction ∧ ¬ s.health ≤ 0 ∧
        P.sqrt ((p.x - s.x) * (p.x - s.x) + (p.y - s.y) * (p.y - s.y)) ≤ s.size ∧
        out.2.1 = { s with health := if s.health - dmg ≤ 0 then 0 else s.health - dmg } ∧
        out.2.2 = decide (s.health - dmg ≤ 0) := by
  intro l
  induction l with
  | nil =>
    intro out h
    exact absurd h (by simp [projHitShips])
  | cons s rest ih =>
    intro out h
    unfold projHitShips at h
    by_cases hf : s.faction = p.faction
    · rw [if_pos hf] at h
      cases hr : projHitShips P dmg p rest with
      | none =>
        rw [hr] at h
        exact absurd h (by simp)
      | some r =>
        rw [hr] at h
        simp only [Option.map_some'] at h
        obtain rfl := Option.some_inj.mp h
        obtain ⟨pre, s0, post, h1, h2, h3, h4, h5, h6, h7, h8⟩ := ih r hr
        exact ⟨s :: pre, s0, post, by rw [h1]; rfl,
          by dsimp only; rw [h2, List.cons_append], fun t ht => by
            rcases List.mem_cons.mp ht with rfl | ht2
            · exact Or.inl hf
            · exact h3 t ht2, h4, h5, h6, h7, h8⟩
    · rw [if_neg hf] at h
      by_cases hh : s.health ≤ 0
      · rw [if_pos hh] at h
        cases hr : projHitShips P dmg p rest with
        | none =>
          rw [hr] at h
          exact absurd h (by simp)
        | some r =>
          rw [hr] at h
          simp only [Option.map_some'] at h
          obtain rfl := Option.some_inj.mp h
          obtain ⟨pre, s0, post, h1, h2, h3, h4, h5, h6, h7, h8⟩ := ih r hr
          exact ⟨s :: pre, s0, post, by rw [h1]; rfl,
            by dsimp only; rw [h2, List.cons_append], fun t ht => by
              rcases List.mem_cons.mp ht with rfl | ht2
              · exact Or.inr (Or.inl hh)
              · exact h3 t ht2, h4, h5, h6, h7, h8⟩
      · rw [if_neg hh] at h
        dsimp only at h
        by_cases hd : P.sqrt ((p.x - s.x) * (p.x - s.x) + (p.y - s.y) * (p.y - s.y)) ≤ s.size
        · rw [if_pos hd] at h
          obtain rfl := Option.some_inj.mp h
          exact ⟨[], s, rest, rfl, rfl, by simp, hf, hh, hd, rfl, rfl⟩
        · rw [if_neg hd] at h
          cases hr : projHitShips P dmg p rest with
          | none =>
            rw [hr] at h
            exact absurd h (by simp)
          | some r =>
            rw [hr] at h
            simp only [Option.map_some'] at h
            obtain rfl := Option.some_inj.mp h
            obtain ⟨pre, s0, post, h1, h2, h3, h4, h5, h6, h7, h8⟩ := ih r hr
            exact ⟨s :: pre, s0, post, by rw [h1]; rfl,
              by dsimp only; rw [h2, List.cons_append], fun t ht => by
                rcases List.mem_cons.mp ht with rfl | ht2
                · exact Or.inr (Or.inr hd)
                · exact h3 t ht2, h4, h5, h6, h7, h8⟩

/-- The inner collision scan finds no ship exactly when the projectile misses
every ship in the list. -/
lemma projHitShips_eq_none (P : MathPrims) (dmg : ℚ) (p : LaserProjectile) :
    ∀ l : List Starship, projHitShips P dmg p l = none ↔ ∀ t ∈ l, missedBy P p t := by
  intro l
  induction l with
  | nil => simp [projHitShips]
  | cons s rest ih =>
    unfold projHitShips
    by_cases hf : s.faction = p.faction
    · rw [if_pos hf]
      constructor
      · intro h t ht
        rcases List.mem_cons.mp ht with rfl | ht2
        · exact Or.inl hf
        · cases hr : projHitShips P dmg p rest with
          | none => exact (ih.mp hr) t ht2
          | some r =>
            rw [hr] at h
            exact absurd h (by simp)
      · intro h
        cases hr : projHitShips P dmg p rest with
        | none => simp [hr]
        | some r =>
          rw [ih.mpr (fun t ht => h t (List.mem_cons_of_mem _ ht))] at hr
          exact absurd hr (by simp)
    · rw [if_neg hf]
      by_cases hh : s.health ≤ 0
      · rw [if_pos hh]
        constructor
        · intro h t ht
          rcases List.mem_cons.mp ht with rfl | ht2
          · exact Or.inr (Or.inl hh)
          · cases hr : projHitShips P dmg p rest with
            | none => exact (ih.mp hr) t ht2
            | some r =>
              rw [hr] at h
              exact absurd h (by simp)
        · intro h
          cases hr : projHitShips P dmg p rest with
          | none => simp [hr]
          | some r =>
            rw [ih.mpr (fun t ht => h t (List.mem_cons_of_mem _ ht))] at hr
            exact absurd hr (by simp)
      · rw [if_neg hh]
        dsimp only
        by_cases hd : P.sqrt ((p.x - s.x) * (p.x - s.x) + (p.y - s.y) * (p.y - s.y)) ≤ s.size
        · rw [if_pos hd]
          constructor
          · intro h
            exact absurd h (by simp)
          · intro h
            rcases h s (List.mem_cons_self _ _) with hm | hm | hm
            · exact absurd hm hf
            · exact absurd hm hh
            · exact absurd hd hm
        · rw [if_neg hd]
          constructor
          · intro h t ht
            rcases List.mem_cons.mp ht with rfl | ht2
            · exact Or.inr (Or.inr hd)
            · cases hr : projHitShips P dmg p rest with
              | none => exact (ih.mp hr) t ht2
              | some r =>
                rw [hr] at h
                exact absurd h (by simp)
          · intro h
            cases hr : projHitShips P dmg p rest with
            | none => simp [hr]
            | some r =>
              rw [ih.mpr (fun t ht => h t (List.mem_cons_of_mem _ ht))] at hr
              exact absurd hr (by simp)

/-- Across one `checkCollisions` pass, every ship keeps its faction, position
and size, and any health change of a ship is accounted for by a projectile of
the pass whose faction differs from that ship's and which is within collision
range of that ship. -/
lemma collisionLoop_ships_rel (P : MathPrims) (cfg : BattleConfig) (now : ℚ) :
    ∀ (ps : List LaserProjectile) (acc : CollisionPass),
      List.Forall₂ (fun s t => s.faction = t.faction ∧ t.x = s.x ∧ t.y = s.y ∧
        t.size = s.size ∧
        (t.health ≠ s.health → ∃ p ∈ ps, p.faction ≠ s.faction ∧
          P.sqrt ((p.x - s.x) * (p.x - s.x) + (p.y - s.y) * (p.y - s.y)) ≤ s.size))
        acc.ships (collisionLoop P cfg now ps acc).ships := by
  intro ps
  induction ps with
  | nil =>
    intro acc
    exact List.forall₂_same.mpr
      (fun s _ => ⟨rfl, rfl, rfl, rfl, fun hne => absurd rfl hne⟩)
  | cons p rest ih =>
    have hweak : ∀ (l1 l2 : List Starship),
        List.Forall₂ (fun s t => s.faction = t.faction ∧ t.x = s.x ∧ t.y = s.y ∧
          t.size = s.size ∧
          (t.health ≠ s.health → ∃ q ∈ rest, q.faction ≠ s.faction ∧
            P.sqrt ((q.x - s.x) * (q.x - s.x) + (q.y - s.y) * (q.y - s.y)) ≤ s.size)) l1 l2 →
        List.Forall₂ (fun s t => s.faction = t.faction ∧ t.x = s.x ∧ t.y = s.y ∧
          t.size = s.size ∧
          (t.health ≠ s.health → ∃ q ∈ p :: rest, q.faction ≠ s.faction ∧
            P.sqrt ((q.x - s.x) * (q.x - s.x) + (q.y - s.y) * (q.y - s.y)) ≤ s.size)) l1 l2 := by
      intro l1 l2 h
      exact h.imp (fun a b hab => ⟨hab.1, hab.2.1, hab.2.2.1, hab.2.2.2.1, fun hne =>
        (hab.2.2.2.2 hne).imp (fun q hq => ⟨List.mem_cons_of_mem _ hq.1, hq.2⟩)⟩)
    intro acc
    unfold collisionLoop
    split
    · exact hweak _ _ (ih acc)
    · cases hhit : projHitShips P cfg.projectileDamage p acc.ships with
      | none => exact hweak _ _ (ih acc)
      | some hit =>
        dsimp only
        have hstep : List.Forall₂ (fun s t => s.faction = t.faction ∧ t.x = s.x ∧
            t.y = s.y ∧ t.size = s.size ∧
            (t.health ≠ s.health → p.faction ≠ s.faction ∧
              P.sqrt ((p.x - s.x) * (p.x - s.x) + (p.y - s.y) * (p.y - s.y)) ≤ s.size))
            acc.ships hit.1 := by
          obtain ⟨pre, s0, post, h1, h2, h3, h4, h5, h6, h7, h8⟩ :=
            projHitShips_eq_some P cfg.projectileDamage p acc.ships hit hhit
          rw [h1, h2]
          apply List.rel_append
          · exact List.forall₂_same.mpr
              (fun t _ => ⟨rfl, rfl, rfl, rfl, fun hne => absurd rfl hne⟩)
          · apply List.Forall₂.cons
            · refine ⟨?_, ?_, ?_, ?_, fun _ => ⟨fun hc => h4 hc.symm, h6⟩⟩
              · rw [h7]
              · rw [h7]
              · rw [h7]
              · rw [h7]
            · exact List.forall₂_same.mpr
                (fun t _ => ⟨rfl, rfl, rfl, rfl, fun hne => absurd rfl hne⟩)
        have hcompose : ∀ (a b c : Starship),
            (a.faction = b.faction ∧ b.x = a.x ∧ b.y = a.y ∧ b.size = a.size ∧
              (b.health ≠ a.health → p.faction ≠ a.faction ∧
                P.sqrt ((p.x - a.x) * (p.x - a.x) + (p.y - a.y) * (p.y - a.y)) ≤ a.size)) →
            (b.faction = c.faction ∧ c.x = b.x ∧ c.y = b.y ∧ c.size = b.size ∧
              (c.health ≠ b.health → ∃ q ∈ rest, q.faction ≠ b.faction ∧
                P.sqrt ((q.x - b.x) * (q.x - b.x) + (q.y - b.y) * (q.y - b.y)) ≤ b.size)) →
            (a.faction = c.faction ∧ c.x = a.x ∧ c.y = a.y ∧ c.size = a.size ∧
              (c.health ≠ a.health → ∃ q ∈ p :: rest, q.faction ≠ a.faction ∧
                P.sqrt ((q.x - a.x) * (q.x - a.x) + (q.y - a.y) * (q.y - a.y)) ≤ a.size)) := by
          intro a b c hab hbc
          obtain ⟨hf1, hx1, hy1, hs1, himp1⟩ := hab
          obtain ⟨hf2, hx2, hy2, hs2, himp2⟩ := hbc
          refine ⟨hf1.trans hf2, hx2.trans hx1, hy2.trans hy1, hs2.trans hs1, fun hne => ?_⟩
          by_cases hba : b.health = a.health
          · have hcb : c.health ≠ b.health := by rw [hba]; exact hne
            obtain ⟨q, hq1, hq2, hq3⟩ := himp2 hcb
            refine ⟨q, List.mem_cons_of_mem _ hq1, ?_, ?_⟩
            · rw [hf1]
              exact hq2
            · rw [hx1, hy1, hs1] at hq3
              exact hq3
          · obtain ⟨hqf, hqr⟩ := himp1 hba
            exact ⟨p, List.mem_cons_self _ _, hqf, hqr⟩
        cases hd : hit.2.2 with
        | false =>
          simp only [hd, Bool.false_eq_true, if_false]
          exact forall2_comp hcompose hstep (ih
            { ships := hit.1,
              explosions := acc.explosions ++ [createExplosion P now acc.nextId acc.rngIndex p.x p.y],
              respawnQueue := acc.respawnQueue, nextId := acc.nextId + 1,
              rngIndex := acc.rngIndex + 1, removed := acc.removed ++ [p.id] })
        | true =>
          simp only [hd, if_true]
          exact forall2_comp hcompose hstep (ih
            { ships := hit.1,
              explosions := acc.explosions ++ [createExplosion P now acc.nextId acc.rngIndex p.x p.y] ++
                [createExplosion P now (acc.nextId + 1) (acc.rngIndex + 1) hit.2.1.x hit.2.1.y],
              respawnQueue := acc.respawnQueue ++
                [{ faction := hit.2.1.faction, respawnAt := now + cfg.respawnDelay }],
              nextId := acc.nextId + 1 + 1, rngIndex := acc.rngIndex + 1 + 1,
              removed := acc.removed ++ [p.id] })

/-- C3: no projectile ever reduces the health of a ship of its own faction.
First conjunct: in the collision scan a projectile performs (the only place
the engine applies damage), the single ship whose health it reduces — all
other entries are returned untouched — always has a faction different from
the projectile's.  Second conjunct, lifting this to a whole `checkCollisions`
call: every ship keeps its faction, and whenever its health decreased, some
projectile of the pass with the other faction was within collision range of
that very ship. -/
theorem no_friendly_fire (P : MathPrims) (e : Engine) :
    (∀ (dmg : ℚ) (p : LaserProjectile) (l : List Starship)
        (out : List Starship × Starship × Bool),
      projHitShips P dmg p l = some out →
      p.faction ≠ out.2.1.faction ∧
      ∃ pre s post, l = pre ++ s :: post ∧ out.1 = pre ++ out.2.1 :: post ∧
        s.faction = out.2.1.faction ∧ 0 < s.health ∧
        out.2.1 = { s with health := if s.health - dmg ≤ 0 then 0 else s.health - dmg }) ∧
    List.Forall₂ (fun s t => s.faction = t.faction ∧
      (t.health < s.health → ∃ p ∈ e.projectiles, p.faction ≠ s.faction ∧
        P.sqrt ((p.x - s.x) * (p.x - s.x) + (p.y - s.y) * (p.y - s.y)) ≤ s.size))
      e.ships (checkCollisions P e).ships := by
  constructor
  · intro dmg p l out h
    obtain ⟨pre, s0, post, h1, h2, h3, h4, h5, h6, h7, h8⟩ :=
      projHitShips_eq_some P dmg p l out h
    have hfac : out.2.1.faction = s0.faction := by rw [h7]
    refine ⟨?_, pre, s0, post, h1, h2, hfac.symm, not_le.mp h5, h7⟩
    rw [hfac]
    exact fun hc => h4 hc.symm
  · have h := collisionLoop_ships_rel P e.config e.currentTime e.projectiles
      { ships := e.ships, explosions := e.explosions, respawnQueue := e.respawnQueue,
        nextId := e.nextId, rngIndex := e.rngIndex, removed := [] }
    exact h.imp (fun a b hab =>
      ⟨hab.1, fun hlt => hab.2.2.2.2 (ne_of_lt hlt)⟩)

/-!
## C9: idempotence of `checkCollisions`
-/

/-- What one collision pass can do to a ship: its identity, position, size and
faction are untouched, and a destroyed ship stays destroyed. -/
def shipEvol (s t : Starship) : Prop :=
  t.id = s.id ∧ t.x = s.x ∧ t.y = s.y ∧ t.size = s.size ∧ t.faction = s.faction ∧
    (s.health ≤ 0 → t.health ≤ 0)

lemma shipEvol_refl (s : Starship) : shipEvol s s :=
  ⟨rfl, rfl, rfl, rfl, rfl, fun h => h⟩

lemma shipEvol_trans (a b c : Starship) (hab : shipEvol a b) (hbc : shipEvol b c) :
    shipEvol a c :=
  ⟨hbc.1.trans hab.1, hbc.2.1.trans hab.2.1, hbc.2.2.1.trans hab.2.2.1,
    hbc.2.2.2.1.trans hab.2.2.2.1, hbc.2.2.2.2.1.trans hab.2.2.2.2.1,
    fun h => hbc.2.2.2.2.2 (hab.2.2.2.2.2 h)⟩

lemma missedBy_of_evol (P : MathPrims) (p : LaserProjectile) (s t : Starship)
    (hm : missedBy P p s) (he : shipEvol s t) : missedBy P p t := by
  obtain ⟨h1, h2, h3, h4, h5, h6⟩ := he
  rcases hm with hm | hm | hm
  · exact Or.inl (h5.trans hm)
  · exact Or.inr (Or.inl (h6 hm))
  · refine Or.inr (Or.inr ?_)
    rw [h2, h3, h4]
    exact hm

lemma projHitShips_evol (P : MathPrims) (dmg : ℚ) (p : LaserProjectile)
    (l : List Starship) (out : List Starship × Starship × Bool)
    (h : projHitShips P dmg p l = some out) :
    List.Forall₂ shipEvol l out.1 := by
  obtain ⟨pre, s0, post, h1, h2, _, _, h5, _, h7, _⟩ := projHitShips_eq_some P dmg p l out h
  rw [h1, h2]
  apply List.rel_append (List.forall₂_same.mpr (fun x _ => shipEvol_refl x))
  apply List.Forall₂.cons
  · rw [h7]
    exact ⟨rfl, rfl, rfl, rfl, rfl, fun hh => absurd hh h5⟩
  · exact List.forall₂_same.mpr (fun x _ => shipEvol_refl x)

lemma collisionLoop_evol (P : MathPrims) (cfg : BattleConfig) (now : ℚ) :
    ∀ (ps : List LaserProjectile) (acc : CollisionPass),
      List.Forall₂ shipEvol acc.ships (collisionLoop P cfg now ps acc).ships := by
  intro ps
  induction ps with
  | nil =>
    intro acc
    exact List.forall₂_same.mpr (fun x _ => shipEvol_refl x)
  | cons p rest ih =>
    intro acc
    unfold collisionLoop
    split
    · exact ih acc
    · cases hhit : projHitShips P cfg.projectileDamage p acc.ships with
      | none => exact ih acc
      | some hit =>
        dsimp only
        have hstep := projHitShips_evol P cfg.projectileDamage p acc.ships hit hhit
        cases hd : hit.2.2 with
        | false =>
          simp only [hd, Bool.false_eq_true, if_false]
          exact forall2_comp shipEvol_trans hstep (ih
            { ships := hit.1,
              explosions := acc.explosions ++ [createExplosion P now acc.nextId acc.rngIndex p.x p.y],
              respawnQueue := acc.respawnQueue, nextId := acc.nextId + 1,
              rngIndex := acc.rngIndex + 1, removed := acc.removed ++ [p.id] })
        | true =>
          simp only [hd, if_true]
          exact forall2_comp shipEvol_trans hstep (ih
            { ships := hit.1,
              explosions := acc.explosions ++ [createExplosion P now acc.nextId acc.rngIndex p.x p.y] ++
                [createExplosion P now (acc.nextId + 1) (acc.rngIndex + 1) hit.2.1.x hit.2.1.y],
              respawnQueue := acc.respawnQueue ++
                [{ faction := hit.2.1.faction, respawnAt := now + cfg.respawnDelay }],
              nextId := acc.nextId + 1 + 1, rngIndex := acc.rngIndex + 1 + 1,
              removed := acc.removed ++ [p.id] })

lemma collisionLoop_removed_mono (P : MathPrims) (cfg : BattleConfig) (now : ℚ) :
    ∀ (ps : List LaserProjectile) (acc : CollisionPass) (x : ℕ),
      x ∈ acc.removed → x ∈ (collisionLoop P cfg now ps acc).removed := by
  intro ps
  induction ps with
  | nil => exact fun acc x hx => hx
  | cons p rest ih =>
    intro acc x hx
    unfold collisionLoop
    split
    · exact ih acc x hx
    · cases hhit : projHitShips P cfg.projectileDamage p acc.ships with
      | none => exact ih acc x hx
      | some hit =>
        dsimp only
        cases hd : hit.2.2 with
        | false =>
          simp only [hd, Bool.false_eq_true, if_false]
          exact ih _ x (List.mem_append_left _ hx)
        | true =>
          simp only [hd, if_true]
          exact ih _ x (List.mem_append_left _ hx)

/-- A projectile that was scanned by the pass and not collided misses every
ship of the resulting ship list. -/
lemma collisionLoop_survivor (P : MathPrims) (cfg : BattleConfig) (now : ℚ) :
    ∀ (ps : List LaserProjectile) (acc : CollisionPass) (p : LaserProjectile),
      p ∈ ps → p.id ∉ (collisionLoop P cfg now ps acc).removed →
      ∀ t ∈ (collisionLoop P cfg now ps acc).ships, missedBy P p t := by
  intro ps
  induction ps with
  | nil =>
    intro acc p hp
    cases hp
  | cons q rest ih =>
    intro acc p hp hnr t ht
    unfold collisionLoop at hnr ht
    by_cases hq : q.id ∈ acc.removed
    · rw [if_pos hq] at hnr ht
      rcases List.mem_cons.mp hp with rfl | hp2
      · exact absurd (collisionLoop_removed_mono P cfg now rest acc p.id hq) hnr
      · exact ih acc p hp2 hnr t ht
    · rw [if_neg hq] at hnr ht
      cases hhit : projHitShips P cfg.projectileDamage q acc.ships with
      | none =>
        rw [hhit] at hnr ht
        rcases List.mem_cons.mp hp with rfl | hp2
        · have hmiss := (projHitShips_eq_none P cfg.projectileDamage p acc.ships).mp hhit
          obtain ⟨s, hs, hevol⟩ := forall2_mem_right (collisionLoop_evol P cfg now rest acc) t ht
          exact missedBy_of_evol P p s t (hmiss s hs) hevol
        · exact ih acc p hp2 hnr t ht
      | some hit =>
        rw [hhit] at hnr ht
        dsimp only at hnr ht
        cases hd : hit.2.2 with
        | false =>
          simp only [hd, Bool.false_eq_true, if_false] at hnr ht
          rcases List.mem_cons.mp hp with rfl | hp2
          · refine absurd (collisionLoop_removed_mono P cfg now rest _ p.id ?_) hnr
            exact List.mem_append_right _ (List.mem_singleton_self _)
          · exact ih _ p hp2 hnr t ht
        | true =>
          simp only [hd, if_true] at hnr ht
          rcases List.mem_cons.mp hp with rfl | hp2
          · refine absurd (collisionLoop_removed_mono P cfg now rest _ p.id ?_) hnr
            exact List.mem_append_right _ (List.mem_singleton_self _)
          · exact ih _ p hp2 hnr t ht

/-- When every projectile misses every ship, the pass changes nothing. -/
lemma collisionLoop_nohit_id (P : MathPrims) (cfg : BattleConfig) (now : ℚ) :
    ∀ (ps : List LaserProjectile) (acc : CollisionPass),
      (∀ p ∈ ps, ∀ t ∈ acc.ships, missedBy P p t) →
      collisionLoop P cfg now ps acc = acc := by
  intro ps
  induction ps with
  | nil => exact fun acc _ => rfl
  | cons q rest ih =>
    intro acc h
    unfold collisionLoop
    by_cases hq : q.id ∈ acc.removed
    · rw [if_pos hq]
      exact ih acc (fun p hp => h p (List.mem_cons_of_mem _ hp))
    · rw [if_neg hq]
      have hnone : projHitShips P cfg.projectileDamage q acc.ships = none :=
        (projHitShips_eq_none P cfg.projectileDamage q acc.ships).mpr
          (h q (List.mem_cons_self _ _))
      rw [hnone]
      exact ih acc (fun p hp => h p (List.mem_cons_of_mem _ hp))

/-- The accumulator `checkCollisions` starts its pass with. -/
def collisionAcc (e : Engine) : CollisionPass :=
  { ships := e.ships, explosions := e.explosions, respawnQueue := e.respawnQueue,
    nextId := e.nextId, rngIndex := e.rngIndex, removed := [] }

lemma checkCollisions_def (P : MathPrims) (e : Engine) :
    checkCollisions P e = { e with
      ships := (collisionLoop P e.config e.currentTime e.projectiles (collisionAcc e)).ships
      explosions := (collisionLoop P e.config e.currentTime e.projectiles (collisionAcc e)).explosions
      respawnQueue := (collisionLoop P e.config e.currentTime e.projectiles (collisionAcc e)).respawnQueue
      nextId := (collisionLoop P e.config e.currentTime e.projectiles (collisionAcc e)).nextId
      rngIndex := (collisionLoop P e.config e.currentTime e.projectiles (collisionAcc e)).rngIndex
      projectiles := e.projectiles.filter (fun p => decide (¬ p.id ∈
        (collisionLoop P e.config e.currentTime e.projectiles (collisionAcc e)).removed)) } := rfl

/-- Every projectile surviving a `checkCollisions` call misses every ship of
the resulting state. -/
lemma checkCollisions_survivors (P : MathPrims) (e : Engine) :
    ∀ p ∈ (checkCollisions P e).projectiles,
      ∀ t ∈ (checkCollisions P e).ships, missedBy P p t := by
  intro p hp t ht
  rw [checkCollisions_def] at hp ht
  dsimp only at hp ht
  have hp2 := List.mem_filter.mp hp
  have hnr : p.id ∉ (collisionLoop P e.config e.currentTime e.projectiles
      (collisionAcc e)).removed := of_decide_eq_true hp2.2
  exact collisionLoop_survivor P e.config e.currentTime e.projectiles
    (collisionAcc e) p hp2.1 hnr t ht

/-- A `checkCollisions` call on a state where every projectile misses every
ship is the identity. -/
lemma checkCollisions_eq_self (P : MathPrims) (f : Engine)
    (h : ∀ p ∈ f.projectiles, ∀ t ∈ f.ships, missedBy P p t) :
    checkCollisions P f = f := by
  rw [checkCollisions_def]
  rw [collisionLoop_nohit_id P f.config f.currentTime f.projectiles (collisionAcc f) h]
  dsimp only [collisionAcc]
  have hfilter : f.projectiles.filter (fun p => decide (¬ p.id ∈ ([] : List ℕ)))
      = f.projectiles :=
    List.filter_eq_self.mpr (fun a _ => by simp)
  rw [hfilter]

/-- C9: `checkCollisions` is idempotent — an immediately repeated call removes
no projectile, changes no ship, creates no explosion and enqueues no respawn
entry: it returns the state unchanged. -/
theorem checkCollisions_idempotent (P : MathPrims) (e : Engine) :
    checkCollisions P (checkCollisions P e) = checkCollisions P e :=
  checkCollisions_eq_self P (checkCollisions P e) (checkCollisions_survivors P e)

/-!
## C2 and C4: counting and health machinery
-/

/-- The fields of a ship that the movement and firing code never changes. -/
def sig (s : Starship) : Faction × ℚ :=
  (s.faction, s.health)

def countFaction (f : Faction) (l : List Starship) : ℕ :=
  (l.filter (fun s => decide (s.faction = f))).length

def countDead (f : Faction) (l : List Starship) : ℕ :=
  (l.filter (fun s => decide (s.faction = f ∧ s.health ≤ 0))).length

def countQueue (f : Faction) (q : List RespawnEntry) : ℕ :=
  (q.filter (fun r => decide (r.faction = f))).length

lemma countFaction_cons (f : Faction) (s : Starship) (rest : List Starship) :
    countFaction f (s :: rest) = (if s.faction = f then 1 else 0) + countFaction f rest := by
  unfold countFaction
  rw [List.filter_cons]
  by_cases h : s.faction = f
  · simp [h]
    omega
  · simp [h]

lemma countDead_cons (f : Faction) (s : Starship) (rest : List Starship) :
    countDead f (s :: rest) =
      (if s.faction = f ∧ s.health ≤ 0 then 1 else 0) + countDead f rest := by
  unfold countDead
  rw [List.filter_cons]
  by_cases h : s.faction = f ∧ s.health ≤ 0
  · simp [h]
    omega
  · simp [h]

lemma countQueue_cons (f : Faction) (r : RespawnEntry) (rest : List RespawnEntry) :
    countQueue f (r :: rest) = (if r.faction = f then 1 else 0) + countQueue f rest := by
  unfold countQueue
  rw [List.filter_cons]
  by_cases h : r.faction = f
  · simp [h]
    omega
  · simp [h]

lemma countFaction_append (f : Faction) (l1 l2 : List Starship) :
    countFaction f (l1 ++ l2) = countFaction f l1 + countFaction f l2 := by
  unfold countFaction
  rw [List.filter_append, List.length_append]

lemma countDead_append (f : Faction) (l1 l2 : List Starship) :
    countDead f (l1 ++ l2) = countDead f l1 + countDead f l2 := by
  unfold countDead
  rw [List.filter_append, List.length_append]

lemma countQueue_append (f : Faction) (l1 l2 : List RespawnEntry) :
    countQueue f (l1 ++ l2) = countQueue f l1 + countQueue f l2 := by
  unfold countQueue
  rw [List.filter_append, List.length_append]

lemma counts_of_sig_eq (f : Faction) :
    ∀ (l l' : List Starship), l.map sig = l'.map sig →
      countFaction f l = countFaction f l' ∧ countDead f l = countDead f l' := by
  intro l
  induction l with
  | nil =>
    intro l' h
    cases l' with
    | nil => exact ⟨rfl, rfl⟩
    | cons t rest' => simp at h
  | cons s rest ih =>
    intro l' h
    cases l' with
    | nil => simp at h
    | cons t rest' =>
      simp only [List.map_cons, List.cons.injEq] at h
      obtain ⟨hsig, hrest⟩ := h
      have hfac : s.faction = t.faction := congrArg Prod.fst hsig
      have hhp : s.health = t.health := congrArg Prod.snd hsig
      obtain ⟨ih1, ih2⟩ := ih rest' hrest
      rw [countFaction_cons, countFaction_cons, countDead_cons, countDead_cons,
        hfac, hhp, ih1, ih2]
      exact ⟨rfl, rfl⟩

lemma healths_of_sig_eq (l l' : List Starship) (h : l.map sig = l'.map sig) :
    ∀ s' ∈ l', ∃ s ∈ l, s.health = s'.health := by
  intro s' hs'
  have hmem : sig s' ∈ l.map sig := by
    rw [h]
    exact List.mem_map_of_mem sig hs'
  obtain ⟨s, hs, hsig⟩ := List.mem_map.mp hmem
  exact ⟨s, hs, congrArg Prod.snd hsig⟩

lemma length_eq_counts (l : List Starship) :
    l.length = countFaction Faction.rebel l + countFaction Faction.imperial l := by
  induction l with
  | nil => rfl
  | cons s rest ih =>
    rw [List.length_cons, countFaction_cons, countFaction_cons, ih]
    cases hfa : s.faction <;> simp <;> omega

lemma spawnShips_spec (P : MathPrims) (cfg : BattleConfig) (fa : Faction) :
    ∀ (n idc ri : ℕ),
      (spawnShips P cfg fa n idc ri).1.length = n ∧
      ∀ s ∈ (spawnShips P cfg fa n idc ri).1, s.faction = fa ∧ s.health = 100 := by
  intro n
  induction n with
  | zero =>
    intro idc ri
    exact ⟨rfl, fun s hs => absurd hs (List.not_mem_nil s)⟩
  | succ n ih =>
    intro idc ri
    unfold spawnShips
    dsimp only
    obtain ⟨ihl, ihm⟩ := ih (idc + 1) (ri + 4)
    refine ⟨by rw [List.length_cons, ihl], ?_⟩
    intro s hs
    rcases List.mem_cons.mp hs with rfl | hs2
    · exact ⟨rfl, rfl⟩
    · exact ihm s hs2

lemma countFaction_all (f fa : Faction) (l : List Starship)
    (h : ∀ s ∈ l, s.faction = fa) :
    countFaction f l = if fa = f then l.length else 0 := by
  induction l with
  | nil => simp [countFaction]
  | cons s rest ih =>
    rw [countFaction_cons, h s (List.mem_cons_self _ _),
      ih (fun t ht => h t (List.mem_cons_of_mem _ ht))]
    by_cases hf : fa = f <;> simp [hf] <;> omega

lemma countDead_all_alive (f : Faction) (l : List Starship)
    (h : ∀ s ∈ l, 0 < s.health) : countDead f l = 0 := by
  induction l with
  | nil => rfl
  | cons s rest ih =>
    rw [countDead_cons, ih (fun t ht => h t (List.mem_cons_of_mem _ ht))]
    have hs := h s (List.mem_cons_self _ _)
    have : ¬ (s.faction = f ∧ s.health ≤ 0) := fun hc => absurd hs (not_lt.mpr hc.2)
    simp [this]

/-- The per-faction bookkeeping the engine maintains: live counts match the
config, and each faction has exactly as many destroyed ships in the collection
as pending respawn entries. -/
def EngineCounts (e : Engine) : Prop :=
  countFaction Faction.rebel e.ships = e.config.rebelShipCount ∧
  countFaction Faction.imperial e.ships = e.config.imperialShipCount ∧
  countDead Faction.rebel e.ships = countQueue Faction.rebel e.respawnQueue ∧
  countDead Faction.imperial e.ships = countQueue Faction.imperial e.respawnQueue

lemma mkEngine_counts (P : MathPrims) (cfg : BattleConfig) (idc ri : ℕ) :
    EngineCounts (mkEngine P cfg idc ri) := by
  obtain ⟨hl1, hm1⟩ := spawnShips_spec P cfg Faction.rebel cfg.rebelShipCount idc ri
  obtain ⟨hl2, hm2⟩ := spawnShips_spec P cfg Faction.imperial cfg.imperialShipCount
    (spawnShips P cfg Faction.rebel cfg.rebelShipCount idc ri).2.1
    (spawnShips P cfg Faction.rebel cfg.rebelShipCount idc ri).2.2
  have hfac1 := fun t ht => (hm1 t ht).1
  have hfac2 := fun t ht => (hm2 t ht).1
  have halive1 : ∀ t ∈ (spawnShips P cfg Faction.rebel cfg.rebelShipCount idc ri).1,
      0 < t.health := fun t ht => by rw [(hm1 t ht).2]; norm_num
  have halive2 : ∀ t ∈ (spawnShips P cfg Faction.imperial cfg.imperialShipCount
      (spawnShips P cfg Faction.rebel cfg.rebelShipCount idc ri).2.1
      (spawnShips P cfg Faction.rebel cfg.rebelShipCount idc ri).2.2).1,
      0 < t.health := fun t ht => by rw [(hm2 t ht).2]; norm_num
  refine ⟨?_, ?_, ?_, ?_⟩
  · show countFaction Faction.rebel (_ ++ _) = _
    rw [countFaction_append, countFaction_all _ _ _ hfac1, countFaction_all _ _ _ hfac2,
      hl1]
    simp
    rfl
  · show countFaction Faction.imperial (_ ++ _) = _
    rw [countFaction_append, countFaction_all _ _ _ hfac1, countFaction_all _ _ _ hfac2,
      hl2]
    simp
    rfl
  · show countDead Faction.rebel (_ ++ _) = countQueue Faction.rebel []
    rw [countDead_append, countDead_all_alive _ _ halive1, countDead_all_alive _ _ halive2]
    rfl
  · show countDead Faction.imperial (_ ++ _) = countQueue Faction.imperial []
    rw [countDead_append, countDead_all_alive _ _ halive1, countDead_all_alive _ _ halive2]
    rfl

lemma updateOneShip_sig (P : MathPrims) (cfg : BattleConfig) (dt : ℚ)
    (all : List Starship) (s : Starship) :
    sig (updateOneShip P cfg dt all s) = sig s := by
  unfold updateOneShip
  cases findNearestEnemy P all s with
  | none => rfl
  | some t =>
    dsimp only
    split
    · rfl
    · rfl

lemma updateShipsAux_sig (P : MathPrims) (cfg : BattleConfig) (dt : ℚ) :
    ∀ (l done : List Starship),
      (updateShipsAux P cfg dt done l).map sig = done.map sig ++ l.map sig := by
  intro l
  induction l with
  | nil =>
    intro done
    simp [updateShipsAux]
  | cons s rest ih =>
    intro done
    unfold updateShipsAux
    split
    · rw [ih (done ++ [s])]
      simp [List.map_append]
    · rw [ih (done ++ [updateOneShip P cfg dt (done ++ s :: rest) s])]
      simp [List.map_append, updateOneShip_sig]

lemma updateShips_sig (P : MathPrims) (e : Engine) (dt : ℚ) :
    (updateShips P e dt).ships.map sig = e.ships.map sig := by
  show (updateShipsAux P e.config dt [] e.ships).map sig = e.ships.map sig
  rw [updateShipsAux_sig]
  rfl

lemma setLastFire_sig (sid : ℕ) (t : ℚ) :
    ∀ l : List Starship, (setLastFire sid t l).map sig = l.map sig := by
  intro l
  induction l with
  | nil => rfl
  | cons s rest ih =>
    unfold setLastFire
    split
    · rfl
    · rw [List.map_cons, List.map_cons, ih]

lemma fireAtTarget_ships_sig (P : MathPrims) (e : Engine) (a b : ℕ) :
    (fireAtTarget P e a b).ships.map sig = e.ships.map sig := by
  unfold fireAtTarget
  cases e.ships.find? (fun s => s.id == a) with
  | none => rfl
  | some ship =>
    cases e.ships.find? (fun s => s.id == b) with
    | none => rfl
    | some target =>
      dsimp only
      split
      · rfl
      · split
        · rfl
        · exact setLastFire_sig ship.id e.currentTime e.ships

lemma autoFireAux_ships_sig (P : MathPrims) :
    ∀ (ids : List ℕ) (e : Engine),
      (autoFireAux P ids e).ships.map sig = e.ships.map sig := by
  intro ids
  induction ids with
  | nil => exact fun e => rfl
  | cons sid rest ih =>
    intro e
    unfold autoFireAux
    cases e.ships.find? (fun s => s.id == sid) with
    | none => exact ih e
    | some ship =>
      dsimp only
      split
      · exact ih e
      · split
        · exact ih e
        · cases findNearestEnemy P e.ships ship with
          | none => exact ih e
          | some target =>
            dsimp only
            rw [ih (fireAtTarget P e ship.id target.id)]
            exact fireAtTarget_ships_sig P e ship.id target.id

/-- Effect of a successful inner collision scan on the faction counters: the
faction tallies never change, a destroying hit turns exactly one live ship of
the hit ship's faction into a destroyed one, and a non-destroying hit leaves
the destroyed tallies alone. -/
lemma projHitShips_counts (P : MathPrims) (dmg : ℚ) (p : LaserProjectile)
    (l : List Starship) (out : List Starship × Starship × Bool)
    (h : projHitShips P dmg p l = some out) (f : Faction) :
    countFaction f out.1 = countFaction f l ∧
    (out.2.2 = true →
      countDead f out.1 = countDead f l + (if out.2.1.faction = f then 1 else 0)) ∧
    (out.2.2 = false → countDead f out.1 = countDead f l) := by
  obtain ⟨pre, s0, post, h1, h2, _, _, h5, _, h7, h8⟩ :=
    projHitShips_eq_some P dmg p l out h
  have hfac : out.2.1.faction = s0.faction := by rw [h7]
  have hdead0 : ¬ (s0.faction = f ∧ s0.health ≤ 0) := fun hc => h5 hc.2
  refine ⟨?_, ?_, ?_⟩
  · rw [h1, h2, countFaction_append, countFaction_append, countFaction_cons,
      countFaction_cons, hfac]
  · intro hflag
    have hle : s0.health - dmg ≤ 0 := of_decide_eq_true (h8 ▸ hflag)
    have hdead1 : out.2.1.faction = f ∧ out.2.1.health ≤ 0 ↔ s0.faction = f := by
      constructor
      · exact fun hc => by rw [← hfac]; exact hc.1
      · intro hc
        refine ⟨by rw [hfac]; exact hc, ?_⟩
        rw [h7]
        dsimp only
        rw [if_pos hle]
    rw [h1, h2, countDead_append, countDead_append, countDead_cons, countDead_cons]
    by_cases hc : s0.faction = f
    · rw [if_pos (hdead1.mpr hc), if_neg hdead0, if_pos (hfac.trans hc)]
      omega
    · rw [if_neg (fun hx => hc (hdead1.mp hx)), if_neg hdead0,
        if_neg (fun hx => hc (hfac ▸ hx))]
      omega
  · intro hflag
    have hgt : ¬ s0.health - dmg ≤ 0 := by
      intro hle
      rw [h8] at hflag
      rw [decide_eq_true hle] at hflag
      exact absurd hflag (by simp)
    have hdead1 : ¬ (out.2.1.faction = f ∧ out.2.1.health ≤ 0) := by
      intro hc
      apply hgt
      have : out.2.1.health ≤ 0 := hc.2
      rw [h7] at this
      dsimp only at this
      rw [if_neg hgt] at this
      exact this
    rw [h1, h2, countDead_append, countDead_append, countDead_cons, countDead_cons,
      if_neg hdead1, if_neg hdead0]

/-- Across a collision pass the faction tallies are unchanged, and the number
of newly destroyed ships of each faction equals the number of newly enqueued
respawn entries of that faction. -/
lemma collisionLoop_counts (P : MathPrims) (cfg : BattleConfig) (now : ℚ) (f : Faction) :
    ∀ (ps : List LaserProjectile) (acc : CollisionPass),
      countFaction f (collisionLoop P cfg now ps acc).ships = countFaction f acc.ships ∧
      countDead f (collisionLoop P cfg now ps acc).ships + countQueue f acc.respawnQueue =
        countDead f acc.ships + countQueue f (collisionLoop P cfg now ps acc).respawnQueue := by
  intro ps
  induction ps with
  | nil => exact fun acc => ⟨rfl, rfl⟩
  | cons p rest ih =>
    intro acc
    unfold collisionLoop
    split
    · exact ih acc
    · cases hhit : projHitShips P cfg.projectileDamage p acc.ships with
      | none => exact ih acc
      | some hit =>
        dsimp only
        obtain ⟨hcf, hcd1, hcd0⟩ := projHitShips_counts P cfg.projectileDamage p acc.ships hit hhit f
        cases hd : hit.2.2 with
        | false =>
          simp only [hd, Bool.false_eq_true, if_false]
          obtain ⟨ih1, ih2⟩ := ih
            { ships := hit.1,
              explosions := acc.explosions ++ [createExplosion P now acc.nextId acc.rngIndex p.x p.y],
              respawnQueue := acc.respawnQueue, nextId := acc.nextId + 1,
              rngIndex := acc.rngIndex + 1, removed := acc.removed ++ [p.id] }
          dsimp only at ih1 ih2
          refine ⟨ih1.trans hcf, ?_⟩
          have := hcd0 hd
          omega
        | true =>
          simp only [hd, if_true]
          obtain ⟨ih1, ih2⟩ := ih
            { ships := hit.1,
              explosions := acc.explosions ++ [createExplosion P now acc.nextId acc.rngIndex p.x p.y] ++
                [createExplosion P now (acc.nextId + 1) (acc.rngIndex + 1) hit.2.1.x hit.2.1.y],
              respawnQueue := acc.respawnQueue ++
                [{ faction := hit.2.1.faction, respawnAt := now + cfg.respawnDelay }],
              nextId := acc.nextId + 1 + 1, rngIndex := acc.rngIndex + 1 + 1,
              removed := acc.removed ++ [p.id] }
          dsimp only at ih1 ih2
          refine ⟨ih1.trans hcf, ?_⟩
          have hq : countQueue f (acc.respawnQueue ++
              [{ faction := hit.2.1.faction, respawnAt := now + cfg.respawnDelay }]) =
              countQueue f acc.respawnQueue + (if hit.2.1.faction = f then 1 else 0) := by
            rw [countQueue_append, countQueue_cons]
            dsimp only
            have h0 : countQueue f ([] : List RespawnEntry) = 0 := rfl
            rw [h0]
            omega
          have hd1 := hcd1 hd
          rw [hq] at ih2
          omega

lemma checkCollisions_counts (P : MathPrims) (e : Engine)
    (h : EngineCounts e) : EngineCounts (checkCollisions P e) := by
  rw [checkCollisions_def]
  unfold EngineCounts
  dsimp only
  obtain ⟨hr1, hr2⟩ := collisionLoop_counts P e.config e.currentTime Faction.rebel
    e.projectiles (collisionAcc e)
  obtain ⟨hi1, hi2⟩ := collisionLoop_counts P e.config e.currentTime Faction.imperial
    e.projectiles (collisionAcc e)
  obtain ⟨h1, h2, h3, h4⟩ := h
  simp only [show (collisionAcc e).ships = e.ships from rfl,
    show (collisionAcc e).respawnQueue = e.respawnQueue from rfl] at hr1 hr2 hi1 hi2
  exact ⟨hr1.trans h1, hi1.trans h2, by omega, by omega⟩

lemma removeFirstDead_counts (g : Faction) :
    ∀ l : List Starship, 1 ≤ countDead g l →
      ∀ f, countFaction f (removeFirstDead g l) + (if g = f then 1 else 0) = countFaction f l ∧
        countDead f (removeFirstDead g l) + (if g = f then 1 else 0) = countDead f l := by
  intro l
  induction l with
  | nil =>
    intro h
    exact absurd h (by simp [countDead])
  | cons s rest ih =>
    intro h f
    unfold removeFirstDead
    by_cases hc : s.faction = g ∧ s.health ≤ 0
    · rw [if_pos hc]
      rw [countFaction_cons, countDead_cons]
      obtain ⟨hg, hh⟩ := hc
      constructor
      · rw [hg]
        by_cases hf : g = f <;> simp [hf] <;> omega
      · have hcond : s.faction = f ∧ s.health ≤ 0 ↔ g = f := by
          constructor
          · intro hx
            exact hg.symm.trans hx.1
          · intro hx
            exact ⟨hg.trans hx, hh⟩
        by_cases hf : g = f
        · simp only [hcond, hf, if_true]
          omega
        · simp only [hcond, hf, if_false]
          omega
    · rw [if_neg hc]
      have h2 : 1 ≤ countDead g rest := by
        rw [countDead_cons, if_neg hc] at h
        simpa using h
      obtain ⟨ih1, ih2⟩ := ih h2 f
      rw [countFaction_cons, countFaction_cons, countDead_cons, countDead_cons]
      omega

lemma countQueue_filter_split (f : Faction) (now : ℚ) :
    ∀ q : List RespawnEntry,
      countQueue f (q.filter (fun r => decide (now ≥ r.respawnAt))) +
        countQueue f (q.filter (fun r => decide (now < r.respawnAt))) = countQueue f q := by
  intro q
  induction q with
  | nil => rfl
  | cons r rest ih =>
    rw [List.filter_cons, List.filter_cons, countQueue_cons]
    by_cases hc : now ≥ r.respawnAt
    · have hc2 : ¬ now < r.respawnAt := not_lt.mpr hc
      simp only [hc, decide_True, if_true, hc2, decide_False, Bool.false_eq_true, if_false]
      rw [countQueue_cons]
      omega
    · have hc2 : now < r.respawnAt := not_le.mp hc
      simp only [hc, decide_False, Bool.false_eq_true, if_false, hc2, decide_True, if_true]
      rw [countQueue_cons]
      omega

lemma respawnLoop_counts (P : MathPrims) :
    ∀ (ts : List RespawnEntry) (e : Engine),
      (∀ g, countQueue g ts ≤ countDead g e.ships) →
      ∀ f, countFaction f (respawnLoop P e ts).ships = countFaction f e.ships ∧
        countDead f (respawnLoop P e ts).ships + countQueue f ts = countDead f e.ships := by
  intro ts
  induction ts with
  | nil =>
    intro e h f
    exact ⟨rfl, rfl⟩
  | cons entry rest ih =>
    intro e h f
    unfold respawnLoop
    dsimp only
    have hge : 1 ≤ countDead entry.faction e.ships := by
      have hq := h entry.faction
      rw [countQueue_cons, if_pos rfl] at hq
      omega
    have hfresh_fac : (createShip P e.config e.nextId e.rngIndex entry.faction).faction
        = entry.faction := rfl
    have hfresh_health : (createShip P e.config e.nextId e.rngIndex entry.faction).health
        = 100 := rfl
    have hnew : ∀ g, countFaction g (removeFirstDead entry.faction e.ships ++
          [createShip P e.config e.nextId e.rngIndex entry.faction]) +
          (if entry.faction = g then 1 else 0) =
          countFaction g e.ships + (if entry.faction = g then 1 else 0) ∧
        countDead g (removeFirstDead entry.faction e.ships ++
          [createShip P e.config e.nextId e.rngIndex entry.faction]) +
          (if entry.faction = g then 1 else 0) = countDead g e.ships := by
      intro g
      obtain ⟨hr1, hr2⟩ := removeFirstDead_counts entry.faction e.ships hge g
      have hs1 : countFaction g (removeFirstDead entry.faction e.ships ++
          [createShip P e.config e.nextId e.rngIndex entry.faction]) =
          countFaction g (removeFirstDead entry.faction e.ships) +
          (if entry.faction = g then 1 else 0) := by
        rw [countFaction_append, countFaction_cons, hfresh_fac]
        have h0 : countFaction g ([] : List Starship) = 0 := rfl
        rw [h0]
        omega
      have hs2 : countDead g (removeFirstDead entry.faction e.ships ++
          [createShip P e.config e.nextId e.rngIndex entry.faction]) =
          countDead g (removeFirstDead entry.faction e.ships) := by
        rw [countDead_append, countDead_cons]
        have hno : ¬ ((createShip P e.config e.nextId e.rngIndex entry.faction).faction = g ∧
            (createShip P e.config e.nextId e.rngIndex entry.faction).health ≤ 0) := by
          intro hx
          rw [hfresh_health] at hx
          exact absurd hx.2 (by norm_num)
        rw [if_neg hno]
        have h0 : countDead g ([] : List Starship) = 0 := rfl
        rw [h0]
        omega
      exact ⟨by rw [hs1]; omega, by rw [hs2]; omega⟩
    have hpre : ∀ g, countQueue g rest ≤ countDead g
        (removeFirstDead entry.faction e.ships ++
          [createShip P e.config e.nextId e.rngIndex entry.faction]) := by
      intro g
      have hq := h g
      rw [countQueue_cons] at hq
      have := (hnew g).2
      omega
    obtain ⟨ih1, ih2⟩ := ih
      { e with
        ships := removeFirstDead entry.faction e.ships ++
          [createShip P e.config e.nextId e.rngIndex entry.faction]
        nextId := e.nextId + 1
        rngIndex := e.rngIndex + 4 } hpre f
    dsimp only at ih1 ih2
    obtain ⟨hn1, hn2⟩ := hnew f
    rw [countQueue_cons]
    constructor
    · rw [ih1]
      omega
    · omega

lemma processRespawnQueue_counts (P : MathPrims) (e : Engine)
    (h : EngineCounts e) : EngineCounts (processRespawnQueue P e) := by
  obtain ⟨h1, h2, h3, h4⟩ := h
  unfold processRespawnQueue
  have hpre : ∀ g, countQueue g
      (e.respawnQueue.filter (fun r => decide (e.currentTime ≥ r.respawnAt))) ≤
      countDead g e.ships := by
    intro g
    have hsplit := countQueue_filter_split g e.currentTime e.respawnQueue
    cases g
    · omega
    · omega
  have hloop := respawnLoop_counts P
    (e.respawnQueue.filter (fun r => decide (e.currentTime ≥ r.respawnAt)))
    { e with respawnQueue := e.respawnQueue.filter (fun r => decide (e.currentTime < r.respawnAt)) }
    (fun g => hpre g)
  obtain ⟨f1, f2, f3, f4, f5⟩ := respawnLoop_frame P
    (e.respawnQueue.filter (fun r => decide (e.currentTime ≥ r.respawnAt)))
    { e with respawnQueue := e.respawnQueue.filter (fun r => decide (e.currentTime < r.respawnAt)) }
  obtain ⟨hlr1, hlr2⟩ := hloop Faction.rebel
  obtain ⟨hli1, hli2⟩ := hloop Faction.imperial
  dsimp only at hlr1 hlr2 hli1 hli2
  unfold EngineCounts
  rw [f4, f5]
  dsimp only
  have hsr := countQueue_filter_split Faction.rebel e.currentTime e.respawnQueue
  have hsi := countQueue_filter_split Faction.imperial e.currentTime e.respawnQueue
  exact ⟨hlr1.trans h1, hli1.trans h2, by omega, by omega⟩

lemma counts_of_sig_queue (e e' : Engine)
    (hs : e'.ships.map sig = e.ships.map sig)
    (hq : e'.respawnQueue = e.respawnQueue)
    (hc : e'.config = e.config)
    (h : EngineCounts e) : EngineCounts e' := by
  obtain ⟨c1, c2⟩ := counts_of_sig_eq Faction.rebel e'.ships e.ships hs
  obtain ⟨c3, c4⟩ := counts_of_sig_eq Faction.imperial e'.ships e.ships hs
  obtain ⟨h1, h2, h3, h4⟩ := h
  refine ⟨?_, ?_, ?_, ?_⟩
  · rw [c1, hc]
    exact h1
  · rw [c3, hc]
    exact h2
  · rw [c2, hq]
    exact h3
  · rw [c4, hq]
    exact h4

lemma updateShips_counts (P : MathPrims) (e : Engine) (dt : ℚ)
    (h : EngineCounts e) : EngineCounts (updateShips P e dt) :=
  counts_of_sig_queue e (updateShips P e dt) (updateShips_sig P e dt) rfl rfl h

lemma fireAtTarget_counts (P : MathPrims) (e : Engine) (a b : ℕ)
    (h : EngineCounts e) : EngineCounts (fireAtTarget P e a b) :=
  counts_of_sig_queue e (fireAtTarget P e a b) (fireAtTarget_ships_sig P e a b)
    (fireAtTarget_frame P e a b).2.2.2.1 (fireAtTarget_frame P e a b).2.1 h

lemma autoFire_counts (P : MathPrims) (e : Engine)
    (h : EngineCounts e) : EngineCounts (autoFire P e) := by
  refine counts_of_sig_queue e (autoFire P e) ?_ ?_ ?_ h
  · exact autoFireAux_ships_sig P (e.ships.map (fun s => s.id)) e
  · exact (autoFireAux_frame P (e.ships.map (fun s => s.id)) e).2.2.2.1
  · exact (autoFireAux_frame P (e.ships.map (fun s => s.id)) e).2.1

lemma update_counts (P : MathPrims) (e : Engine) (dt : ℚ)
    (h : EngineCounts e) : EngineCounts (Engine.update P e dt) := by
  show EngineCounts (autoFire P (processRespawnQueue P (updateExplosions (checkCollisions P
    (updateProjectiles (updateShips P { e with currentTime := e.currentTime + dt * 1000 } dt) dt)))))
  apply autoFire_counts
  apply processRespawnQueue_counts
  have h1 : EngineCounts { e with currentTime := e.currentTime + dt * 1000 } := h
  have h2 := updateShips_counts P { e with currentTime := e.currentTime + dt * 1000 } dt h1
  have h3 : EngineCounts (updateProjectiles
    (updateShips P { e with currentTime := e.currentTime + dt * 1000 } dt) dt) := h2
  exact checkCollisions_counts P _ h3

lemma applyAction_counts (P : MathPrims) (e : Engine) (a : Action)
    (h : EngineCounts e) : EngineCounts (applyAction P e a) := by
  cases a with
  | update dt => exact update_counts P e dt h
  | fire x y => exact fireAtTarget_counts P e x y h
  | collide => exact checkCollisions_counts P e h
  | reset => exact mkEngine_counts P e.config e.nextId e.rngIndex

lemma applyAction_config (P : MathPrims) (e : Engine) (a : Action) :
    (applyAction P e a).config = e.config := by
  cases a with
  | update dt => exact (update_fields P e dt).2
  | fire x y => exact (fireAtTarget_frame P e x y).2.1
  | collide => rfl
  | reset => rfl

lemma runActions_counts (P : MathPrims) :
    ∀ (acts : List Action) (e : Engine), EngineCounts e →
      EngineCounts (runActions P e acts) ∧ (runActions P e acts).config = e.config := by
  intro acts
  induction acts with
  | nil => exact fun e h => ⟨h, rfl⟩
  | cons a rest ih =>
    intro e h
    obtain ⟨h1, h2⟩ := ih (applyAction P e a) (applyAction_counts P e a h)
    exact ⟨h1, h2.trans (applyAction_config P e a)⟩

/-- C2: immediately after construction and after any sequence of public calls
(`update`, `fireAtTarget`, `checkCollisions`, `reset`), the ships collection
holds exactly `rebelShipCount + imperialShipCount` ships, with exactly
`rebelShipCount` rebels and `imperialShipCount` imperials (destroyed ships
stay in the collection and are counted until a respawn replaces them). -/
theorem entity_count_invariant (P : MathPrims) (cfg : BattleConfig) (idc ri : ℕ)
    (acts : List Action) :
    (runActions P (mkEngine P cfg idc ri) acts).ships.length =
      cfg.rebelShipCount + cfg.imperialShipCount ∧
    countFaction Faction.rebel (runActions P (mkEngine P cfg idc ri) acts).ships =
      cfg.rebelShipCount ∧
    countFaction Faction.imperial (runActions P (mkEngine P cfg idc ri) acts).ships =
      cfg.imperialShipCount := by
  obtain ⟨⟨h1, h2, _, _⟩, hcfg⟩ := runActions_counts P acts (mkEngine P cfg idc ri)
    (mkEngine_counts P cfg idc ri)
  have hc : (runActions P (mkEngine P cfg idc ri) acts).config = cfg := hcfg
  rw [hc] at h1 h2
  exact ⟨by rw [length_eq_counts, h1, h2], h1, h2⟩

/-- The health bounds of C4. -/
def HealthBounds (e : Engine) : Prop :=
  ∀ s ∈ e.ships, 0 ≤ s.health ∧ s.health ≤ 100

lemma hb_of_sig (l l' : List Starship) (h : l.map sig = l'.map sig)
    (hb : ∀ s ∈ l, 0 ≤ s.health ∧ s.health ≤ 100) :
    ∀ s ∈ l', 0 ≤ s.health ∧ s.health ≤ 100 := by
  intro s' hs'
  obtain ⟨s, hs, hh⟩ := healths_of_sig_eq l l' h s' hs'
  rw [← hh]
  exact hb s hs

lemma hb_of_engine_sig (e e' : Engine) (hs : e'.ships.map sig = e.ships.map sig)
    (h : HealthBounds e) : HealthBounds e' :=
  hb_of_sig e.ships e'.ships hs.symm h

lemma projHitShips_hb (P : MathPrims) (dmg : ℚ) (p : LaserProjectile)
    (l : List Starship) (out : List Starship × Starship × Bool) (hdmg : 0 ≤ dmg)
    (h : projHitShips P dmg p l = some out)
    (hb : ∀ s ∈ l, 0 ≤ s.health ∧ s.health ≤ 100) :
    ∀ s ∈ out.1, 0 ≤ s.health ∧ s.health ≤ 100 := by
  obtain ⟨pre, s0, post, h1, h2, _, _, h5, _, h7, _⟩ := projHitShips_eq_some P dmg p l out h
  intro s hs
  rw [h2] at hs
  subst h1
  rcases List.mem_append.mp hs with hpre | hrest
  · exact hb s (List.mem_append_left _ hpre)
  · rcases List.mem_cons.mp hrest with rfl | hpost
    · rw [h7]
      dsimp only
      obtain ⟨hb0, hb100⟩ := hb s0 (List.mem_append_right _ (List.mem_cons_self _ _))
      by_cases hle : s0.health - dmg ≤ 0
      · rw [if_pos hle]
        norm_num
      · rw [if_neg hle]
        have := not_le.mp hle
        constructor
        · linarith
        · linarith
    · exact hb s (List.mem_append_right _ (List.mem_cons_of_mem _ hpost))

lemma collisionLoop_hb (P : MathPrims) (cfg : BattleConfig) (now : ℚ)
    (hdmg : 0 ≤ cfg.projectileDamage) :
    ∀ (ps : List LaserProjectile) (acc : CollisionPass),
      (∀ s ∈ acc.ships, 0 ≤ s.health ∧ s.health ≤ 100) →
      ∀ s ∈ (collisionLoop P cfg now ps acc).ships, 0 ≤ s.health ∧ s.health ≤ 100 := by
  intro ps
  induction ps with
  | nil => exact fun acc h => h
  | cons p rest ih =>
    intro acc h
    unfold collisionLoop
    split
    · exact ih acc h
    · cases hhit : projHitShips P cfg.projectileDamage p acc.ships with
      | none => exact ih acc h
      | some hit =>
        dsimp only
        have hb2 := projHitShips_hb P cfg.projectileDamage p acc.ships hit hdmg hhit h
        cases hd : hit.2.2 with
        | false =>
          simp only [hd, Bool.false_eq_true, if_false]
          exact ih
            { ships := hit.1,
              explosions := acc.explosions ++ [createExplosion P now acc.nextId acc.rngIndex p.x p.y],
              respawnQueue := acc.respawnQueue, nextId := acc.nextId + 1,
              rngIndex := acc.rngIndex + 1, removed := acc.removed ++ [p.id] } hb2
        | true =>
          simp only [hd, if_true]
          exact ih
            { ships := hit.1,
              explosions := acc.explosions ++ [createExplosion P now acc.nextId acc.rngIndex p.x p.y] ++
                [createExplosion P now (acc.nextId + 1) (acc.rngIndex + 1) hit.2.1.x hit.2.1.y],
              respawnQueue := acc.respawnQueue ++
                [{ faction := hit.2.1.faction, respawnAt := now + cfg.respawnDelay }],
              nextId := acc.nextId + 1 + 1, rngIndex := acc.rngIndex + 1 + 1,
              removed := acc.removed ++ [p.id] } hb2

lemma checkCollisions_hb (P : MathPrims) (e : Engine)
    (hdmg : 0 ≤ e.config.projectileDamage)
    (h : HealthBounds e) : HealthBounds (checkCollisions P e) := by
  rw [checkCollisions_def]
  intro s hs
  dsimp only at hs
  exact collisionLoop_hb P e.config e.currentTime hdmg e.projectiles (collisionAcc e) h s hs

lemma removeFirstDead_subset (g : Faction) :
    ∀ (l : List Starship) (s : Starship), s ∈ removeFirstDead g l → s ∈ l := by
  intro l
  induction l with
  | nil =>
    intro s hs
    cases hs
  | cons t rest ih =>
    intro s hs
    unfold removeFirstDead at hs
    by_cases hc : t.faction = g ∧ t.health ≤ 0
    · rw [if_pos hc] at hs
      exact List.mem_cons_of_mem _ hs
    · rw [if_neg hc] at hs
      rcases List.mem_cons.mp hs with rfl | hs2
      · exact List.mem_cons_self _ _
      · exact List.mem_cons_of_mem _ (ih s hs2)

lemma respawnLoop_hb (P : MathPrims) :
    ∀ (ts : List RespawnEntry) (e : Engine),
      HealthBounds e → HealthBounds (respawnLoop P e ts) := by
  intro ts
  induction ts with
  | nil => exact fun e h => h
  | cons entry rest ih =>
    intro e h
    unfold respawnLoop
    dsimp only
    apply ih
    intro s hs
    have hs2 : s ∈ removeFirstDead entry.faction e.ships ++
        [createShip P e.config e.nextId e.rngIndex entry.faction] := hs
    rcases List.mem_append.mp hs2 with h1 | h1
    · exact h s (removeFirstDead_subset entry.faction e.ships s h1)
    · rcases List.mem_cons.mp h1 with rfl | h2
      · have hfresh : (createShip P e.config e.nextId e.rngIndex entry.faction).health
            = 100 := rfl
        exact ⟨by rw [hfresh]; norm_num, by rw [hfresh]⟩
      · cases h2

lemma processRespawnQueue_hb (P : MathPrims) (e : Engine)
    (h : HealthBounds e) : HealthBounds (processRespawnQueue P e) := by
  unfold processRespawnQueue
  exact respawnLoop_hb P _ _ h

lemma mkEngine_hb (P : MathPrims) (cfg : BattleConfig) (idc ri : ℕ) :
    HealthBounds (mkEngine P cfg idc ri) := by
  intro s hs
  have hs2 : s ∈ (spawnShips P cfg Faction.rebel cfg.rebelShipCount idc ri).1 ++
      (spawnShips P cfg Faction.imperial cfg.imperialShipCount
        (spawnShips P cfg Faction.rebel cfg.rebelShipCount idc ri).2.1
        (spawnShips P cfg Faction.rebel cfg.rebelShipCount idc ri).2.2).1 := hs
  rcases List.mem_append.mp hs2 with h1 | h1
  · rw [((spawnShips_spec P cfg Faction.rebel cfg.rebelShipCount idc ri).2 s h1).2]
    norm_num
  · rw [((spawnShips_spec P cfg Faction.imperial cfg.imperialShipCount _ _).2 s h1).2]
    norm_num

lemma update_hb (P : MathPrims) (e : Engine) (dt : ℚ)
    (hdmg : 0 ≤ e.config.projectileDamage)
    (h : HealthBounds e) : HealthBounds (Engine.update P e dt) := by
  show HealthBounds (autoFire P (processRespawnQueue P (updateExplosions (checkCollisions P
    (updateProjectiles (updateShips P { e with currentTime := e.currentTime + dt * 1000 } dt) dt)))))
  apply hb_of_engine_sig _ _ (autoFireAux_ships_sig P _ _)
  apply processRespawnQueue_hb
  have h1 : HealthBounds { e with currentTime := e.currentTime + dt * 1000 } := h
  have h2 : HealthBounds
      (updateShips P { e with currentTime := e.currentTime + dt * 1000 } dt) :=
    hb_of_engine_sig _ _ (updateShips_sig P _ dt) h1
  have h3 : HealthBounds (updateProjectiles
      (updateShips P { e with currentTime := e.currentTime + dt * 1000 } dt) dt) := h2
  exact checkCollisions_hb P _ hdmg h3

lemma runActions_hb (P : MathPrims) (cfg : BattleConfig) (hdmg : 0 ≤ cfg.projectileDamage) :
    ∀ (acts : List Action) (e : Engine), e.config = cfg → HealthBounds e →
      HealthBounds (runActions P e acts) := by
  intro acts
  induction acts with
  | nil => exact fun e _ h => h
  | cons a rest ih =>
    intro e hc h
    apply ih (applyAction P e a) ((applyAction_config P e a).trans hc)
    cases a with
    | update dt => exact update_hb P e dt (by rw [hc]; exact hdmg) h
    | fire x y => exact hb_of_engine_sig e _ (fireAtTarget_ships_sig P e x y) h
    | collide => exact checkCollisions_hb P e (by rw [hc]; exact hdmg) h
    | reset => exact mkEngine_hb P e.config e.nextId e.rngIndex

/-- C4: with non-negative `projectileDamage`, after construction followed by
any sequence of public calls every ship satisfies `0 ≤ health ≤ 100`; and a
destroying hit in `checkCollisions` sets the health to exactly 0 (the clamp at
source line 175). -/
theorem health_bounds_invariant (P : MathPrims) (cfg : BattleConfig) (idc ri : ℕ)
    (acts : List Action) (hdmg : 0 ≤ cfg.projectileDamage) :
    (∀ s ∈ (runActions P (mkEngine P cfg idc ri) acts).ships,
      0 ≤ s.health ∧ s.health ≤ 100) ∧
    (∀ (dmg : ℚ) (p : LaserProjectile) (l : List Starship)
        (out : List Starship × Starship × Bool),
      projHitShips P dmg p l = some out → out.2.2 = true → out.2.1.health = 0) := by
  constructor
  · exact runActions_hb P cfg hdmg acts (mkEngine P cfg idc ri) rfl (mkEngine_hb P cfg idc ri)
  · intro dmg p l out h hflag
    obtain ⟨pre, s0, post, _, _, _, _, _, _, h7, h8⟩ := projHitShips_eq_some P dmg p l out h
    have hle : s0.health - dmg ≤ 0 := of_decide_eq_true (h8 ▸ hflag)
    rw [h7]
    dsimp only
    rw [if_pos hle]

/-- C4 witness: the default config has non-negative damage, and right after
construction every ship's health is within bounds. -/
theorem health_bounds_invariant_witness :
    0 ≤ DEFAULT_BATTLE_CONFIG.projectileDamage ∧
    ((∀ s ∈ (runActions TestPrims (mkEngine TestPrims DEFAULT_BATTLE_CONFIG 0 0) []).ships,
      0 ≤ s.health ∧ s.health ≤ 100) ∧
    (∀ (dmg : ℚ) (p : LaserProjectile) (l : List Starship)
        (out : List Starship × Starship × Bool),
      projHitShips TestPrims dmg p l = some out → out.2.2 = true → out.2.1.health = 0)) :=
  ⟨by norm_num [DEFAULT_BATTLE_CONFIG],
    health_bounds_invariant TestPrims DEFAULT_BATTLE_CONFIG 0 0 []
      (by norm_num [DEFAULT_BATTLE_CONFIG])⟩

/-!
## C8: per-ship steering
-/

lemma updateShipsAux_extends (P : MathPrims) (cfg : BattleConfig) (dt : ℚ) :
    ∀ (l done : List Starship), ∃ suf, updateShipsAux P cfg dt done l = done ++ suf := by
  intro l
  induction l with
  | nil =>
    intro done
    exact ⟨[], (List.append_nil done).symm⟩
  | cons s rest ih =>
    intro done
    unfold updateShipsAux
    split
    · obtain ⟨suf, hsuf⟩ := ih (done ++ [s])
      exact ⟨s :: suf, by rw [hsuf, List.append_assoc]; rfl⟩
    · obtain ⟨suf, hsuf⟩ := ih (done ++ [updateOneShip P cfg dt (done ++ s :: rest) s])
      exact ⟨updateOneShip P cfg dt (done ++ s :: rest) s :: suf,
        by rw [hsuf, List.append_assoc]; rfl⟩

/-- C8: in the `updateShips` loop, a living ship with a nearest living enemy
at positive distance turns by the normalized angular difference clamped to
`±2·deltaTime` and has its velocity set to `(cos rotation, sin rotation)`
times its previous speed (its velocity magnitude, or `shipSpeed` when that
magnitude is zero); a living ship with no living enemy keeps its velocity and
rotation unchanged. -/
theorem ship_steering (P : MathPrims) (cfg : BattleConfig) (dt : ℚ)
    (done rest : List Starship) (s : Starship) (halive : 0 < s.health) :
    (∀ t : Starship, findNearestEnemy P (done ++ s :: rest) s = some t →
      0 < P.sqrt ((t.x - s.x) * (t.x - s.x) + (t.y - s.y) * (t.y - s.y)) →
      ∃ s' suf, updateShipsAux P cfg dt done (s :: rest) = done ++ s' :: suf ∧
        s'.rotation = s.rotation + max (-(2 * dt)) (min (2 * dt)
          (normalizeAngle P (P.atan2 (t.y - s.y) (t.x - s.x) - s.rotation))) ∧
        s'.vx = P.cos s'.rotation *
          (if P.sqrt (s.vx * s.vx + s.vy * s.vy) = 0 then cfg.shipSpeed
            else P.sqrt (s.vx * s.vx + s.vy * s.vy)) ∧
        s'.vy = P.sin s'.rotation *
          (if P.sqrt (s.vx * s.vx + s.vy * s.vy) = 0 then cfg.shipSpeed
            else P.sqrt (s.vx * s.vx + s.vy * s.vy)) ∧
        s'.health = s.health ∧ s'.faction = s.faction) ∧
    (findNearestEnemy P (done ++ s :: rest) s = none →
      ∃ s' suf, updateShipsAux P cfg dt done (s :: rest) = done ++ s' :: suf ∧
        s'.vx = s.vx ∧ s'.vy = s.vy ∧ s'.rotation = s.rotation ∧
        s'.health = s.health ∧ s'.faction = s.faction) := by
  have hstep : updateShipsAux P cfg dt done (s :: rest) =
      updateShipsAux P cfg dt (done ++ [updateOneShip P cfg dt (done ++ s :: rest) s]) rest := by
    conv_lhs => unfold updateShipsAux
    rw [if_neg (not_le.mpr halive)]
  obtain ⟨suf, hsuf⟩ := updateShipsAux_extends P cfg dt rest
    (done ++ [updateOneShip P cfg dt (done ++ s :: rest) s])
  have hfull : updateShipsAux P cfg dt done (s :: rest) =
      done ++ updateOneShip P cfg dt (done ++ s :: rest) s :: suf := by
    rw [hstep, hsuf, List.append_assoc]
    rfl
  constructor
  · intro t hfind hdist
    refine ⟨updateOneShip P cfg dt (done ++ s :: rest) s, suf, hfull, ?_, ?_, ?_, ?_, ?_⟩
    all_goals
      unfold updateOneShip
      rw [hfind]
      dsimp only
      rw [if_pos hdist]
  · intro hfind
    refine ⟨updateOneShip P cfg dt (done ++ s :: rest) s, suf, hfull, ?_, ?_, ?_, ?_, ?_⟩
    all_goals
      unfold updateOneShip
      rw [hfind]

/-- C8 witness: a lone live ship (its only companion is itself, so it has no
living enemy) keeps its velocity and rotation across the loop step. -/
theorem ship_steering_witness :
    (0:ℚ) < shipW0.health ∧
    ((∀ t : Starship,
        findNearestEnemy TestPrims ([] ++ shipW0 :: []) shipW0 = some t →
        0 < TestPrims.sqrt ((t.x - shipW0.x) * (t.x - shipW0.x) +
          (t.y - shipW0.y) * (t.y - shipW0.y)) →
        ∃ s' suf, updateShipsAux TestPrims DEFAULT_BATTLE_CONFIG 1 [] (shipW0 :: []) =
            [] ++ s' :: suf ∧
          s'.rotation = shipW0.rotation + max (-(2 * 1)) (min (2 * 1)
            (normalizeAngle TestPrims (TestPrims.atan2 (t.y - shipW0.y) (t.x - shipW0.x) -
              shipW0.rotation))) ∧
          s'.vx = TestPrims.cos s'.rotation *
            (if TestPrims.sqrt (shipW0.vx * shipW0.vx + shipW0.vy * shipW0.vy) = 0
              then DEFAULT_BATTLE_CONFIG.shipSpeed
              else TestPrims.sqrt (shipW0.vx * shipW0.vx + shipW0.vy * shipW0.vy)) ∧
          s'.vy = TestPrims.sin s'.rotation *
            (if TestPrims.sqrt (shipW0.vx * shipW0.vx + shipW0.vy * shipW0.vy) = 0
              then DEFAULT_BATTLE_CONFIG.shipSpeed
              else TestPrims.sqrt (shipW0.vx * shipW0.vx + shipW0.vy * shipW0.vy)) ∧
          s'.health = shipW0.health ∧ s'.faction = shipW0.faction) ∧
      (findNearestEnemy TestPrims ([] ++ shipW0 :: []) shipW0 = none →
        ∃ s' suf, updateShipsAux TestPrims DEFAULT_BATTLE_CONFIG 1 [] (shipW0 :: []) =
            [] ++ s' :: suf ∧
          s'.vx = shipW0.vx ∧ s'.vy = shipW0.vy ∧ s'.rotation = shipW0.rotation ∧
          s'.health = shipW0.health ∧ s'.faction = shipW0.faction)) :=
  ⟨by norm_num [shipW0],
    ship_steering TestPrims DEFAULT_BATTLE_CONFIG 1 [] [] shipW0 (by norm_num [shipW0])⟩

end BattleSim
